import Mathlib

/-!
# golife: Conway's Game of Life on a toroidal grid

A shallow embedding of `golife.go` and a verification of its specification.

Modelling decisions, all taken from the source:

* Go's `int` is the 64-bit two's-complement integer: every `+` and `-` of the
  source is followed by `wrapInt`; `%` and `/` truncate toward zero
  (`Int.tmod`, `Int.tdiv`) and panic on a zero divisor.
* A `[]bool` is a reference to a backing array. The backing arrays live in a
  `Heap` (a list of rows, the address of a row being its position); a slice
  value is `some address`, or `none` for the nil slice. Allocation appends to
  the heap. The upper limit that the runtime puts on the length of a slice is a
  constant of the runtime, not of the source: the embedded `make` fails on a
  negative length only, and every theorem that asserts that `EmptyGrid` or
  `GliderGrid` returns is stated for lengths that pass the length check of
  `make` (`makeGrants`). Exhaustion of the memory of the machine is not modelled.
* The outer `[][]bool` of a grid is written only inside `EmptyGrid`, before the
  grid is returned, so a `Grid` carries it by value: the list of its rows'
  slice values.
* A run-time panic is an `Except.error`.
-/

namespace Golife

/-- The run-time failures the program can raise. -/
inductive Panic
  | indexOutOfRange
  | divideByZero
  | makeLenOutOfRange
  | negativeWaitGroup
  | deadlock
  deriving DecidableEq, Repr

deriving instance DecidableEq for Except

/-- A computation that returns a value or panics. -/
abbrev Result := Except Panic

/-- The largest value of Go's 64-bit `int`. -/
def maxInt : Int := 9223372036854775807

/-- The smallest value of Go's 64-bit `int`. -/
def minInt : Int := -9223372036854775808

/-- Two's-complement wraparound of a mathematical integer into the 64-bit `int`. -/
def wrapInt (z : Int) : Int :=
  (z + 9223372036854775808) % 18446744073709551616 - 9223372036854775808

/-- Go's `a % b` on `int`: the remainder of the division truncated toward zero. -/
def goRem (a b : Int) : Result Int :=
  if b = 0 then .error .divideByZero else .ok (Int.tmod a b)

/-- Go's `a / b` on `int`: the quotient truncated toward zero. -/
def goDiv (a b : Int) : Result Int :=
  if b = 0 then .error .divideByZero else .ok (wrapInt (Int.tdiv a b))

/-- A `[]bool` value: the address of its backing array, `none` for the nil slice. -/
abbrev BoolSlice := Option Nat

/-- The backing arrays of all allocated `[]bool` slices, by address. -/
abbrev Heap := List (List Bool)

/-- The contents of a slice; the nil slice (and a dangling address) has no element. -/
def Heap.row (h : Heap) : BoolSlice → List Bool
  | none => []
  | some a => h.getD a []

/-- The struct `Grid`. -/
structure Grid where
  squares : List BoolSlice
  width : Int
  height : Int
  deriving DecidableEq, Repr

/-- An index expression `xs[i]` with its bounds check. -/
def index {α : Type} (xs : List α) (i : Int) : Result α :=
  if 0 ≤ i then
    match xs[i.toNat]? with
    | some a => .ok a
    | none => .error .indexOutOfRange
  else .error .indexOutOfRange

/-- An assignment `s[i] = v` to an element of a `[]bool`, with its bounds check. -/
def store (h : Heap) (s : BoolSlice) (i : Int) (v : Bool) : Result Heap :=
  match s with
  | none => .error .indexOutOfRange
  | some a =>
    if 0 ≤ i ∧ i < ((h.row (some a)).length : Int) then
      .ok (h.set a ((h.row (some a)).set i.toNat v))
    else .error .indexOutOfRange

/-- The allocation `make([]bool, n)`: a fresh array of `n` times `false`, and a panic on
a negative length. The panic of the runtime on a length above its allocation limit is not
part of this definition: see `makeGrants`. -/
def makeBools (h : Heap) (n : Int) : Result (BoolSlice × Heap) :=
  if n < 0 then .error .makeLenOutOfRange
  else .ok (some h.length, h ++ [List.replicate n.toNat false])

/-- The allocation limit `maxAlloc` of the Go runtime on 64-bit platforms, in bytes. -/
def maxAlloc : Int := 281474976710656

/-- The length check of `make` in the runtime: a slice of `n` elements of `size` bytes
each passes it when `n` is not negative and `size * n` bytes are within `maxAlloc`; a
`bool` takes 1 byte, a `[]bool` slice header 24 bytes. Otherwise `make` panics with
`len out of range`. -/
def makeGrants (size n : Int) : Prop :=
  0 ≤ n ∧ size * n ≤ maxAlloc

instance (size n : Int) : Decidable (makeGrants size n) := by
  unfold makeGrants; infer_instance

/-- The method `Grid.Alive`. -/
def Grid.Alive (h : Heap) (g : Grid) (x y : Int) : Result Bool := do
  let x := wrapInt (x + g.width)
  let x ← goRem x g.width
  let y := wrapInt (y + g.height)
  let y ← goRem y g.height
  let row ← index g.squares x
  index (h.row row) y

/-- The values the loop variables `i` and `j` of `Grid.Next` take, in order. -/
def offsets : List Int := [-1, 0, 1]

/-- The method `Grid.Next`. -/
def Grid.Next (h : Heap) (g : Grid) (x y : Int) : Result Bool := do
  let alive ← offsets.foldlM (fun (alive : Int) i =>
    offsets.foldlM (fun (alive : Int) j =>
      if j ≠ 0 ∨ i ≠ 0 then do
        if (← g.Alive h (wrapInt (x + i)) (wrapInt (y + j))) then
          pure (wrapInt (alive + 1))
        else pure alive
      else pure alive) alive) 0
  if alive = 3 then pure true
  else if alive = 2 then g.Alive h x y
  else pure false

/-- The function `EmptyGrid`. Both `make` panic on a negative length; for their upper
limit see `makeGrants`. -/
def EmptyGrid (h : Heap) (width height : Int) : Result (Grid × Heap) := do
  if height < 0 then throw Panic.makeLenOutOfRange
  let squares : List BoolSlice := List.replicate height.toNat none
  let (squares, h) ← (List.range squares.length).foldlM
    (fun (st : List BoolSlice × Heap) i => do
      let (s, h) ← makeBools st.2 width
      pure (st.1.set i s, h)) (squares, h)
  pure ({ squares := squares, width := width, height := height }, h)

/-- An assignment `grid.squares[x][y] = v`. -/
def Grid.assign (h : Heap) (g : Grid) (x y : Int) (v : Bool) : Result Heap := do
  let row ← index g.squares x
  store h row y v

/-- The function `GliderGrid`. -/
def GliderGrid (h : Heap) (width height : Int) : Result (Grid × Heap) := do
  let (grid, h) ← EmptyGrid h width height
  if width > 4 ∧ height > 4 then
    let center_x ← goDiv width 2
    let center_y ← goDiv height 2
    let h ← grid.assign h center_x (wrapInt (center_y - 1)) true
    let h ← grid.assign h (wrapInt (center_x + 1)) center_y true
    let h ← grid.assign h (wrapInt (center_x - 1)) (wrapInt (center_y + 1)) true
    let h ← grid.assign h center_x (wrapInt (center_y + 1)) true
    let h ← grid.assign h (wrapInt (center_x + 1)) (wrapInt (center_y + 1)) true
    pure (grid, h)
  else pure (grid, h)

/-- The method `sync.WaitGroup.Add` on the counter of the wait group. -/
def wgAdd (wg delta : Int) : Result Int :=
  if wg + delta < 0 then .error .negativeWaitGroup else .ok (wg + delta)

/-- The method `sync.WaitGroup.Done`. -/
def wgDone (wg : Int) : Result Int := wgAdd wg (-1)

/-- The method `sync.WaitGroup.Wait`, called when no other goroutine runs: it
returns when the counter is zero and otherwise blocks for ever. -/
def wgWait (wg : Int) : Result Unit :=
  if wg = 0 then .ok () else .error .deadlock

/-- The method `Grid.threadAssignment`, a plain (synchronous) call in the source. In
`g.squares[x][y] = prev.Next(x,y)` the call on the right is made first and the two index
expressions on the left are checked after it, as in the compiled program. -/
def Grid.threadAssignment (h : Heap) (g prev : Grid) (x y : Int) (wg : Int) :
    Result (Heap × Int) := do
  let v ← prev.Next h x y
  let row ← index g.squares x
  let h ← store h row y v
  let wg ← wgDone wg
  pure (h, wg)

/-- The function `nextGen`. -/
def nextGen (h : Heap) (g : Grid) : Result (Grid × Heap) := do
  let (newGrid, h) ← EmptyGrid h g.width g.height
  let (h, wg) ← (List.range g.width.toNat).foldlM (fun (st : Heap × Int) (x : Nat) =>
    (List.range g.height.toNat).foldlM (fun (st : Heap × Int) (y : Nat) => do
      let wg ← wgAdd st.2 1
      newGrid.threadAssignment st.1 g (x : Int) (y : Int) wg) st) (h, (0 : Int))
  wgWait wg
  pure (newGrid, h)

/-- The function `nextGen` applied `k` times in a row. -/
def generations (k : Nat) (h : Heap) (g : Grid) : Result (Grid × Heap) :=
  match k with
  | 0 => pure (g, h)
  | k + 1 => do
    let (g, h) ← nextGen h g
    generations k h g

/-- The element `g.squares[a][b]`, when both indices are in range. -/
def Grid.cell (h : Heap) (g : Grid) (a b : Nat) : Option Bool :=
  match g.squares[a]? with
  | some s => (h.row s)[b]?
  | none => none

/-- The element `g.squares[a][b]`, read as dead when an index is out of range. -/
def Grid.cellOr (h : Heap) (g : Grid) (a b : Nat) : Bool :=
  (g.cell h a b).getD false

/-- A grid whose matrix is `n` rows of `n` columns and whose width and height are `n`. -/
def Grid.IsSquare (h : Heap) (g : Grid) (n : Nat) : Prop :=
  g.width = n ∧ g.height = n ∧ g.squares.length = n ∧
    ∀ s ∈ g.squares, (h.row s).length = n

instance (h : Heap) (g : Grid) (n : Nat) : Decidable (g.IsSquare h n) := by
  unfold Grid.IsSquare; infer_instance

/-- Every row of the grid is the nil slice or an array allocated in the heap. -/
def Grid.Allocated (h : Heap) (g : Grid) : Prop :=
  ∀ s ∈ g.squares, ∀ a ∈ s, a < h.length

instance (h : Heap) (g : Grid) : Decidable (g.Allocated h) := by
  unfold Grid.Allocated; infer_instance

/-- Specification: the offsets `(i, j)` of `{-1,0,1} x {-1,0,1}` other than `(0, 0)`. -/
def neighbourOffsets : List (Int × Int) :=
  (List.product [-1, 0, 1] [-1, 0, 1]).filter (fun p => p ≠ (0, 0))

/-- Specification: the number of offsets `(i, j)` other than `(0, 0)` for which the cell
`((x+i) mod n, (y+j) mod n)` of the `n`-by-`n` cell matrix `d` is alive. -/
def liveNeighbours (n : Nat) (d : Nat → Nat → Bool) (x y : Nat) : Nat :=
  neighbourOffsets.countP
    (fun p => d (((x : Int) + p.1) % (n : Int)).toNat (((y : Int) + p.2) % (n : Int)).toNat)

/-- Specification: the rule of the game, alive with 3 live neighbours, or with 2 when
already alive. -/
def lifeRule (c : Nat) (s : Bool) : Bool :=
  decide (c = 3) || (decide (c = 2) && s)

/-- Specification: the rule applied at cell `(x, y)` of the `n`-by-`n` cell matrix `d`. -/
def lifeStep (n : Nat) (d : Nat → Nat → Bool) (x y : Nat) : Bool :=
  lifeRule (liveNeighbours n d x y) (d x y)

/-- The slice values of `n` rows allocated one after the other from address `base` on. -/
def freshRows (base n : Nat) : List BoolSlice :=
  (List.range n).map (fun i => some (base + i))

/-- The heap rows of the `n`-by-`n` cell matrix `d`: row `x` holds `d x 0`, ..., `d x (n-1)`. -/
def paint (n : Nat) (d : Nat → Nat → Bool) : List (List Bool) :=
  (List.range n).map (fun x => (List.range n).map (fun y => d x y))

/-- One unit of work of `nextGen` for the coordinate `c`: the body of its inner loop,
`wg.Add(1)` followed by the call of `threadAssignment`. -/
def unitOfWork (newGrid prev : Grid) (st : Heap × Int) (c : Nat × Nat) : Result (Heap × Int) := do
  let wg ← wgAdd st.2 1
  newGrid.threadAssignment st.1 prev (c.1 : Int) (c.2 : Int) wg

/-- The units of work of the coordinates `coords`, run one after the other in the
order of the list. -/
def runUnits (newGrid prev : Grid) (coords : List (Nat × Nat)) (st : Heap × Int) :
    Result (Heap × Int) :=
  coords.foldlM (unitOfWork newGrid prev) st

/-- The coordinates of a `w`-by-`ht` grid in the order in which `nextGen` visits them:
`x` in the outer loop, `y` in the inner loop. -/
def xMajor (w ht : Nat) : List (Nat × Nat) :=
  List.product (List.range w) (List.range ht)

/-- The function `nextGen` with its units of work run in the order `coords`. -/
def nextGenInOrder (coords : List (Nat × Nat)) (h : Heap) (g : Grid) : Result (Grid × Heap) := do
  let (newGrid, h) ← EmptyGrid h g.width g.height
  let (h, wg) ← runUnits newGrid g coords (h, (0 : Int))
  wgWait wg
  pure (newGrid, h)

/-- A heap holding the three rows of a 3-by-3 grid of which the cells (1, 0), (1, 1)
and (1, 2) are alive. -/
def blinkerHeap : Heap :=
  [[false, false, false], [true, true, true], [false, false, false]]

/-- The 3-by-3 grid whose rows are the three rows of `blinkerHeap`. -/
def blinkerGrid : Grid :=
  { squares := [some 0, some 1, some 2], width := 3, height := 3 }

/-- Specification: the five cells of the glider around the centre `(c, c)`, at the
offsets (0,-1), (1,0), (-1,1), (0,1), (1,1) from the centre. -/
def gliderCells (c : Nat) : List (Nat × Nat) :=
  [(c, c - 1), (c + 1, c), (c - 1, c + 1), (c, c + 1), (c + 1, c + 1)]

/-- Specification: the cell matrix of an `n`-by-`n` grid holding the glider around its
centre `n / 2`. -/
def gliderMatrix (n : Nat) (a b : Nat) : Bool :=
  decide ((a, b) ∈ gliderCells (n / 2))

/-- Specification: the rule of the game applied `k` times to the `n`-by-`n` cell
matrix `d`. -/
def lifeSteps (n : Nat) : Nat → (Nat → Nat → Bool) → Nat → Nat → Bool
  | 0, d => d
  | k + 1, d => lifeSteps n k (lifeStep n d)

/-- The cell matrix held by a list of rows, dead outside of the rows. -/
def matrixOf (rows : List (List Bool)) (a b : Nat) : Bool :=
  (rows.getD a []).getD b false

/-- The glider of the 5-by-5 grid after `k` generations, `k` from 0 to 4, as rows
`squares[x]`. -/
def gliderPhase : Nat → List (List Bool)
  | 0 => [[false, false, false, false, false], [false, false, false, true, false],
          [false, true, false, true, false], [false, false, true, true, false],
          [false, false, false, false, false]]
  | 1 => [[false, false, false, false, false], [false, false, true, false, false],
          [false, false, false, true, true], [false, false, true, true, false],
          [false, false, false, false, false]]
  | 2 => [[false, false, false, false, false], [false, false, false, true, false],
          [false, false, false, false, true], [false, false, true, true, true],
          [false, false, false, false, false]]
  | 3 => [[false, false, false, false, false], [false, false, false, false, false],
          [false, false, true, false, true], [false, false, false, true, true],
          [false, false, false, true, false]]
  | _ => [[false, false, false, false, false], [false, false, false, false, false],
          [false, false, false, false, true], [false, false, true, false, true],
          [false, false, false, true, true]]

/-- The heap of `blinkerHeap` after the allocation of the three rows of a fresh 3-by-3
grid. -/
def blinkerHeapFresh : Heap :=
  blinkerHeap ++ [[false, false, false], [false, false, false], [false, false, false]]

/-- The fresh 3-by-3 grid whose rows are the last three rows of `blinkerHeapFresh`. -/
def freshGrid : Grid :=
  { squares := [some 3, some 4, some 5], width := 3, height := 3 }

/-- Specification: the `n`-by-`n` cell matrix `d` translated by `(a, b)` on the torus,
whose cell `(x, y)` is the cell `((x-a) mod n, (y-b) mod n)` of `d`. -/
def shiftMatrix (n : Nat) (a b : Int) (d : Nat → Nat → Bool) (x y : Nat) : Bool :=
  d (((x : Int) - a) % (n : Int)).toNat (((y : Int) - b) % (n : Int)).toNat

/-- The 3-by-3 grid over `blinkerHeap` whose cell `(x, y)` is the cell `((x-1) mod 3, y)`
of `blinkerGrid`. -/
def blinkerGridShifted : Grid :=
  { squares := [some 2, some 0, some 1], width := 3, height := 3 }

/-- The method `Grid.String`; the result is the list of the bytes written to the buffer,
which the source returns as a string. -/
def Grid.String (h : Heap) (g : Grid) : Result (List Char) := do
  let buf : List Char := []
  let buf := (List.range (wrapInt (g.width + 2)).toNat).foldl
    (fun (buf : List Char) (_ : Nat) => buf ++ ['-']) buf
  let buf := buf ++ ['\n']
  let buf ← (List.range g.width.toNat).foldlM (fun (buf : List Char) (i : Nat) => do
    let buf := buf ++ ['|']
    let buf ← (List.range g.height.toNat).foldlM (fun (buf : List Char) (j : Nat) => do
      let row ← index g.squares (j : Int)
      let cell ← index (h.row row) (i : Int)
      let b := if cell then '*' else ' '
      pure (buf ++ [b])) buf
    let buf := buf ++ ['|']
    pure (buf ++ ['\n'])) buf
  let buf := (List.range (wrapInt (g.width + 2)).toNat).foldl
    (fun (buf : List Char) (_ : Nat) => buf ++ ['-']) buf
  pure (buf ++ ['\n'])

/-- The representative of the coordinate `a` of the `n`-by-`n` torus in the window of
`n` consecutive integers that starts two below the centre `n / 2`. -/
def planePos (n a : Nat) : Int :=
  if n / 2 ≤ a + 2 then (a : Int) else (a : Int) + (n : Int)

/-- The `n`-by-`n` cell matrix whose live cells are the cells at the offsets `R` from the
centre `(n / 2, n / 2)`. -/
def relMatrix (n : Nat) (R : List (Int × Int)) (a b : Nat) : Bool :=
  decide ((planePos n a - ((n / 2 : Nat) : Int), planePos n b - ((n / 2 : Nat) : Int)) ∈ R)

/-- Specification: the number of live neighbours of the cell `(u, v)` of the unbounded
plane whose live cells are `R`. -/
def planeCount (R : List (Int × Int)) (u v : Int) : Nat :=
  neighbourOffsets.countP (fun p => decide ((u + p.1, v + p.2) ∈ R))

/-- Specification: the rule of the game at the cell `(u, v)` of the unbounded plane whose
live cells are `R`. -/
def planeStep (R : List (Int × Int)) (u v : Int) : Bool :=
  lifeRule (planeCount R u v) (decide ((u, v) ∈ R))

/-- The live cells of the glider after `k` generations, `k` from 0 to 4, as offsets from
the centre. -/
def gliderRel : Nat → List (Int × Int)
  | 0 => [(0, -1), (1, 0), (-1, 1), (0, 1), (1, 1)]
  | 1 => [(-1, 0), (0, 1), (0, 2), (1, 0), (1, 1)]
  | 2 => [(-1, 1), (0, 2), (1, 0), (1, 1), (1, 2)]
  | 3 => [(0, 0), (0, 2), (1, 1), (1, 2), (2, 1)]
  | _ => [(0, 2), (1, 0), (1, 2), (2, 1), (2, 2)]

/-- The offsets of `R` lie between -1 and 2 in both coordinates. -/
def InWindow (R : List (Int × Int)) : Prop :=
  ∀ p ∈ R, -1 ≤ p.1 ∧ p.1 ≤ 2 ∧ -1 ≤ p.2 ∧ p.2 ≤ 2

instance (R : List (Int × Int)) : Decidable (InWindow R) := by
  unfold InWindow; infer_instance

/-! ## Machine arithmetic -/

theorem wrapInt_eq {z : Int} (h1 : minInt ≤ z) (h2 : z ≤ maxInt) : wrapInt z = z := by
  unfold wrapInt; unfold minInt at h1; unfold maxInt at h2; omega

theorem index_eq {α : Type} {xs : List α} {i : Int} {a : α} (h0 : 0 ≤ i)
    (h : xs[i.toNat]? = some a) : index xs i = .ok a := by
  unfold index; simp [h0, h]

theorem ok_bind {α β : Type} (a : α) (f : α → Result β) : (Except.ok a >>= f) = f a := rfl

/-! ## Lookups in a square grid -/

theorem Grid.IsSquare.cell_eq {h : Heap} {g : Grid} {n a b : Nat} (hsq : g.IsSquare h n)
    (ha : a < n) (hb : b < n) :
    ∃ s, g.squares[a]? = some s ∧ (h.row s)[b]? = some (g.cellOr h a b) := by
  obtain ⟨-, -, hlen, hrows⟩ := hsq
  have ha' : a < g.squares.length := by omega
  refine ⟨g.squares[a], List.getElem?_eq_getElem ha', ?_⟩
  have hr : (h.row g.squares[a]).length = n := hrows _ (List.getElem_mem ha')
  have hb' : b < (h.row g.squares[a]).length := by omega
  simp [Grid.cellOr, Grid.cell, List.getElem?_eq_getElem ha', List.getElem?_eq_getElem hb']

theorem Alive_square {h : Heap} {g : Grid} {n : Nat} (hsq : g.IsSquare h n) (hn : 0 < n)
    {x y : Int} (hx : -(n : Int) ≤ x) (hx2 : x + n ≤ maxInt)
    (hy : -(n : Int) ≤ y) (hy2 : y + n ≤ maxInt) :
    g.Alive h x y = .ok (g.cellOr h (x % n).toNat (y % n).toNat) := by
  have hw := hsq.1
  have hh := hsq.2.1
  have hn0 : (n : Int) ≠ 0 := by omega
  have hnpos : (0 : Int) < n := by omega
  have hxm : 0 ≤ x % (n : Int) := Int.emod_nonneg _ hn0
  have hym : 0 ≤ y % (n : Int) := Int.emod_nonneg _ hn0
  have hxl : x % (n : Int) < n := Int.emod_lt_of_pos _ hnpos
  have hyl : y % (n : Int) < n := Int.emod_lt_of_pos _ hnpos
  obtain ⟨s, hs, hb⟩ := hsq.cell_eq (a := (x % n).toNat) (b := (y % n).toNat)
    (by omega) (by omega)
  have e1 : wrapInt (x + n) = x + n := wrapInt_eq (by unfold minInt; omega) hx2
  have e2 : wrapInt (y + n) = y + n := wrapInt_eq (by unfold minInt; omega) hy2
  have t1 : (x + n).tmod n = x % n := by
    rw [Int.tmod_eq_emod (by omega) (by omega), Int.add_emod_self]
  have t2 : (y + n).tmod n = y % n := by
    rw [Int.tmod_eq_emod (by omega) (by omega), Int.add_emod_self]
  unfold Grid.Alive
  rw [hw, hh, e1, e2]
  simp only [goRem, hn0, if_false, t1, t2, bind, Except.bind]
  rw [index_eq hxm hs]
  exact index_eq hym hb

theorem neighbourOffsets_eq : neighbourOffsets =
    [(-1, -1), (-1, 0), (-1, 1), (0, -1), (0, 1), (1, -1), (1, 0), (1, 1)] := by
  decide

theorem Next_of_lookups {h : Heap} {g : Grid} {x y : Int} {f : Int × Int → Bool} {s : Bool}
    (hA : ∀ p ∈ neighbourOffsets,
      g.Alive h (wrapInt (x + p.1)) (wrapInt (y + p.2)) = .ok (f p))
    (hs : g.Alive h x y = .ok s) :
    g.Next h x y = .ok (lifeRule (neighbourOffsets.countP f) s) := by
  have h1 := hA (-1, -1) (by decide)
  have h2 := hA (-1, 0) (by decide)
  have h3 := hA (-1, 1) (by decide)
  have h4 := hA (0, -1) (by decide)
  have h5 := hA (0, 1) (by decide)
  have h6 := hA (1, -1) (by decide)
  have h7 := hA (1, 0) (by decide)
  have h8 := hA (1, 1) (by decide)
  simp only at h1 h2 h3 h4 h5 h6 h7 h8
  unfold Grid.Next offsets
  simp only [List.foldlM, bind, Except.bind, pure, Except.pure, h1, h2, h3, h4, h5, h6, h7, h8, hs,
    neighbourOffsets_eq, List.countP_cons, List.countP_nil]
  generalize f (-1, -1) = b1
  generalize f (-1, 0) = b2
  generalize f (-1, 1) = b3
  generalize f (0, -1) = b4
  generalize f (0, 1) = b5
  generalize f (1, -1) = b6
  generalize f (1, 0) = b7
  generalize f (1, 1) = b8
  cases b1 <;> cases b2 <;> cases b3 <;> cases b4 <;> cases b5 <;> cases b6 <;> cases b7 <;>
    cases b8 <;> cases s <;> rfl

theorem neighbourOffsets_bound : ∀ p ∈ neighbourOffsets,
    -1 ≤ p.1 ∧ p.1 ≤ 1 ∧ -1 ≤ p.2 ∧ p.2 ≤ 1 := by
  decide

theorem Next_square {h : Heap} {g : Grid} {n : Nat} (hsq : g.IsSquare h n)
    (hmax : 2 * (n : Int) ≤ maxInt) {x y : Nat} (hx : x < n) (hy : y < n) :
    g.Next h x y = .ok (lifeStep n (g.cellOr h) x y) := by
  have hn : 0 < n := by omega
  have hm : 2 * (n : Int) ≤ 9223372036854775807 := hmax
  unfold lifeStep liveNeighbours
  apply Next_of_lookups
  · intro p hp
    obtain ⟨a1, a2, b1, b2⟩ := neighbourOffsets_bound p hp
    have e1 : wrapInt ((x : Int) + p.1) = x + p.1 :=
      wrapInt_eq (by unfold minInt; omega) (by unfold maxInt; omega)
    have e2 : wrapInt ((y : Int) + p.2) = y + p.2 :=
      wrapInt_eq (by unfold minInt; omega) (by unfold maxInt; omega)
    rw [e1, e2]
    exact Alive_square hsq hn (by omega) (by unfold maxInt; omega) (by omega)
      (by unfold maxInt; omega)
  · have := Alive_square hsq hn (x := (x : Int)) (y := (y : Int)) (by omega)
      (by unfold maxInt; omega) (by omega) (by unfold maxInt; omega)
    rw [this]
    have ex : ((x : Int) % (n : Int)).toNat = x := by
      rw [Int.emod_eq_of_lt (by omega) (by omega)]; simp
    have ey : ((y : Int) % (n : Int)).toNat = y := by
      rw [Int.emod_eq_of_lt (by omega) (by omega)]; simp
    rw [ex, ey]

/-! ## Reads depend only on the rows of the grid that is read -/

theorem index_mem {α : Type} {xs : List α} {i : Int} {a : α} (h : index xs i = .ok a) :
    a ∈ xs := by
  unfold index at h
  split at h
  · split at h
    · rename_i b hb
      cases h
      exact List.getElem?_mem hb
    · cases h
  · cases h

theorem Alive_congr {h h1 : Heap} {g : Grid} (hrows : ∀ s ∈ g.squares, h1.row s = h.row s)
    (x y : Int) : g.Alive h1 x y = g.Alive h x y := by
  unfold Grid.Alive
  simp only [bind, Except.bind]
  cases goRem (wrapInt (x + g.width)) g.width with
  | error e => rfl
  | ok a =>
    cases goRem (wrapInt (y + g.height)) g.height with
    | error e => rfl
    | ok b =>
      cases hi : index g.squares a with
      | error e => simp only [hi]
      | ok row => simp only [hi, hrows row (index_mem hi)]

theorem Next_congr {h h1 : Heap} {g : Grid} (hrows : ∀ s ∈ g.squares, h1.row s = h.row s)
    (x y : Int) : g.Next h1 x y = g.Next h x y := by
  have e : g.Alive h1 = g.Alive h := funext fun a => funext fun b => Alive_congr hrows a b
  unfold Grid.Next
  rw [e]

/-! ## `EmptyGrid` in closed form -/

theorem EmptyGrid_loop (h : Heap) (w : Int) (hw : 0 ≤ w) (H : Nat) :
    ∀ k, k ≤ H →
      (List.range k).foldlM
        (fun (st : List BoolSlice × Heap) i => do
          let (s, h) ← makeBools st.2 w
          pure (st.1.set i s, h)) (List.replicate H none, h)
      = (.ok (freshRows h.length k ++ List.replicate (H - k) none,
          h ++ List.replicate k (List.replicate w.toNat false)) :
          Result (List BoolSlice × Heap)) := by
  intro k
  induction k with
  | zero => intro _; simp [freshRows, pure, Except.pure]
  | succ k ih =>
    intro hk
    have hw2 : ¬ w < 0 := by omega
    rw [List.range_succ, List.foldlM_append, ih (by omega)]
    have e : H - k = (H - (k + 1)) + 1 := by omega
    have hlen : (freshRows h.length k).length = k := by simp [freshRows]
    simp only [List.foldlM, bind, Except.bind, pure, Except.pure, makeBools, hw2, if_false]
    rw [e, List.replicate_succ, List.set_append_right _ _ (by omega), hlen, Nat.sub_self,
      List.set_cons_zero]
    simp [freshRows, List.range_succ, List.replicate_succ']

theorem EmptyGrid_eq (h : Heap) (w ht : Int) (hw : 0 ≤ w) (hh : 0 ≤ ht) :
    EmptyGrid h w ht = .ok
      ({ squares := freshRows h.length ht.toNat, width := w, height := ht },
        h ++ List.replicate ht.toNat (List.replicate w.toNat false)) := by
  have hh2 : ¬ ht < 0 := by omega
  unfold EmptyGrid
  simp only [hh2, if_false, List.length_replicate, bind, Except.bind, pure, Except.pure]
  have := EmptyGrid_loop h w hw ht.toNat ht.toNat (le_refl _)
  simp only [bind, Except.bind, pure, Except.pure] at this
  rw [this]
  simp

theorem EmptyGrid_neg_height (h : Heap) (w ht : Int) (hh : ht < 0) :
    EmptyGrid h w ht = .error .makeLenOutOfRange := by
  unfold EmptyGrid
  simp only [hh, if_true]
  rfl

theorem EmptyGrid_neg_width (h : Heap) (w ht : Int) (hh : 0 < ht) (hw : w < 0) :
    EmptyGrid h w ht = .error .makeLenOutOfRange := by
  have hh2 : ¬ ht < 0 := by omega
  obtain ⟨k, hk⟩ : ∃ k, ht.toNat = k + 1 := ⟨ht.toNat - 1, by omega⟩
  unfold EmptyGrid
  simp only [hh2, if_false, List.length_replicate, hk, List.range_succ_eq_map,
    List.foldlM_cons, makeBools, hw, if_true, bind, Except.bind]
  rfl

theorem EmptyGrid_zero_height (h : Heap) (w : Int) :
    EmptyGrid h w 0 = .ok ({ squares := [], width := w, height := 0 }, h) := by
  rfl

theorem EmptyGrid_outcome (h : Heap) (w ht : Int) :
    EmptyGrid h w ht =
      if ht < 0 ∨ (0 < ht ∧ w < 0) then .error .makeLenOutOfRange
      else .ok ({ squares := freshRows h.length ht.toNat, width := w, height := ht },
        h ++ List.replicate ht.toNat (List.replicate w.toNat false)) := by
  by_cases h1 : ht < 0
  · rw [if_pos (Or.inl h1)]
    exact EmptyGrid_neg_height h w ht h1
  · by_cases h2 : ht = 0
    · subst h2
      rw [if_neg (by omega), EmptyGrid_zero_height]
      simp [freshRows]
    · by_cases h3 : w < 0
      · rw [if_pos (Or.inr ⟨by omega, h3⟩)]
        exact EmptyGrid_neg_width h w ht (by omega) h3
      · rw [if_neg (by omega)]
        exact EmptyGrid_eq h w ht (by omega) (by omega)

/-! ## The loops of `nextGen` as one pass over the coordinate list -/

theorem foldlM_product {α β σ : Type} (f : σ → α × β → Result σ) (xs : List α) (ys : List β) :
    ∀ st : σ, xs.foldlM (fun st x => ys.foldlM (fun st y => f st (x, y)) st) st
      = (List.product xs ys).foldlM f st := by
  induction xs with
  | nil => intro st; rfl
  | cons x xs ih =>
    intro st
    show _ = List.foldlM f st ((x :: xs) ×ˢ ys)
    rw [List.product_cons, List.foldlM_append, List.foldlM_cons, List.foldlM_map]
    congr 1
    funext st1
    exact ih st1

theorem nextGen_eq_inOrder (h : Heap) (g : Grid) :
    nextGen h g = nextGenInOrder (xMajor g.width.toNat g.height.toNat) h g := by
  unfold nextGen nextGenInOrder runUnits xMajor
  congr 1
  funext p
  obtain ⟨newGrid, h1⟩ := p
  simp only
  rw [← foldlM_product]
  rfl

/-! ## Writes into freshly allocated rows -/

theorem paint_length (n : Nat) (d : Nat → Nat → Bool) : (paint n d).length = n := by
  simp [paint]

theorem paint_getElem? (n : Nat) (d : Nat → Nat → Bool) {x : Nat} (hx : x < n) :
    (paint n d)[x]? = some ((List.range n).map (fun y => d x y)) := by
  simp [paint, List.getElem?_map, List.getElem?_range hx]

theorem paint_false (n : Nat) :
    List.replicate n (List.replicate n false) = paint n (fun _ _ => false) := by
  apply List.ext_getElem?
  intro k
  by_cases hk : k < n
  · rw [paint_getElem? n _ hk]
    simp [List.getElem?_replicate, hk]
  · simp [List.getElem?_replicate, hk, paint]

theorem paint_congr {n : Nat} {d d1 : Nat → Nat → Bool}
    (hd : ∀ x y, x < n → y < n → d x y = d1 x y) : paint n d = paint n d1 := by
  unfold paint
  apply List.map_congr_left
  intro x hx
  apply List.map_congr_left
  intro y hy
  exact hd x y (List.mem_range.mp hx) (List.mem_range.mp hy)

theorem row_paint (h0 : Heap) (n : Nat) (d : Nat → Nat → Bool) {x : Nat} (hx : x < n) :
    Heap.row (h0 ++ paint n d) (some (h0.length + x)) = (List.range n).map (fun y => d x y) := by
  simp [Heap.row, List.getElem?_append_right, paint_getElem? n d hx]

theorem store_paint (h0 : Heap) (n : Nat) (d : Nat → Nat → Bool) {x y : Nat}
    (hx : x < n) (hy : y < n) (v : Bool) :
    store (h0 ++ paint n d) (some (h0.length + x)) (y : Int) v
      = .ok (h0 ++ paint n (fun a b => if a = x ∧ b = y then v else d a b)) := by
  unfold store
  simp only
  rw [row_paint h0 n d hx]
  have hc : 0 ≤ (y : Int) ∧ (y : Int) < ((List.map (fun y => d x y) (List.range n)).length : Int) := by
    simp; omega
  simp only [hc, and_self, if_true]
  congr 1
  rw [List.set_append_right _ _ (by omega)]
  congr 1
  rw [Nat.add_sub_cancel_left]
  apply List.ext_getElem?
  intro k
  rw [List.getElem?_set]
  by_cases hk : x = k
  · subst hk
    simp only [if_true, paint_length, hx, paint_getElem? n _ hx, Int.toNat_ofNat]
    congr 1
    apply List.ext_getElem?
    intro j
    rw [List.getElem?_set]
    by_cases hj : y = j
    · subst hj
      simp [hy, List.getElem?_range hy]
    · by_cases hj2 : j < n
      · simp [hj, List.getElem?_range hj2, Ne.symm hj]
      · have e : (List.range n)[j]? = none := List.getElem?_eq_none (by simp; omega)
        simp [hj, e]
  · by_cases hk2 : k < n
    · simp only [hk, if_false, paint_getElem? n _ hk2]
      congr 1
      apply List.map_congr_left
      intro j _
      simp [Ne.symm hk]
    · have e : (List.range n)[k]? = none := List.getElem?_eq_none (by simp; omega)
      simp [hk, paint, e]

theorem freshRows_getElem? (base : Nat) {n x : Nat} (hx : x < n) :
    (freshRows base n)[x]? = some (some (base + x)) := by
  simp [freshRows, List.getElem?_map, List.getElem?_range hx]

theorem index_freshRows (base : Nat) {n x : Nat} (hx : x < n) :
    index (freshRows base n) (x : Int) = .ok (some (base + x)) :=
  index_eq (by omega) (by simpa using freshRows_getElem? base hx)

theorem Grid.IsSquare.row_append {h : Heap} {g : Grid} {n : Nat} (hsq : g.IsSquare h n)
    (more : List (List Bool)) : ∀ s ∈ g.squares, Heap.row (h ++ more) s = h.row s := by
  intro s hs
  have hlen := hsq.2.2.2 s hs
  have hn : 0 < n := by
    have := List.length_pos_of_mem hs
    have := hsq.2.2.1
    omega
  cases s with
  | none => rfl
  | some a =>
    by_cases ha : a < h.length
    · simp [Heap.row, List.getElem?_append_left ha]
    · exfalso
      have : h.row (some a) = [] := by
        simp [Heap.row, List.getElem?_eq_none (Nat.le_of_not_lt ha)]
      rw [this] at hlen
      simp at hlen
      omega

theorem threadAssignment_paint {h0 : Heap} {newGrid prev : Grid} {n : Nat}
    (hnew : newGrid.squares = freshRows h0.length n) (hsq : prev.IsSquare h0 n)
    (hmax : 2 * (n : Int) ≤ maxInt) (d : Nat → Nat → Bool) {x y : Nat}
    (hx : x < n) (hy : y < n) :
    newGrid.threadAssignment (h0 ++ paint n d) prev (x : Int) (y : Int) 1
      = .ok (h0 ++ paint n
          (fun a b => if a = x ∧ b = y then lifeStep n (prev.cellOr h0) x y else d a b), 0) := by
  unfold Grid.threadAssignment
  rw [Next_congr (hsq.row_append _), Next_square hsq hmax hx hy, ok_bind, hnew,
    index_freshRows _ hx, ok_bind, store_paint h0 n d hx hy, ok_bind]
  rfl

theorem runUnits_paint {h0 : Heap} {newGrid prev : Grid} {n : Nat}
    (hnew : newGrid.squares = freshRows h0.length n) (hsq : prev.IsSquare h0 n)
    (hmax : 2 * (n : Int) ≤ maxInt) (coords : List (Nat × Nat)) :
    (∀ c ∈ coords, c.1 < n ∧ c.2 < n) → ∀ d : Nat → Nat → Bool,
    runUnits newGrid prev coords (h0 ++ paint n d, 0)
      = .ok (h0 ++ paint n
          (fun a b => if (a, b) ∈ coords then lifeStep n (prev.cellOr h0) a b else d a b), 0) := by
  induction coords with
  | nil => intro _ d; simp [runUnits, pure, Except.pure]
  | cons c cs ih =>
    intro hc d
    obtain ⟨hx, hy⟩ := hc c (List.mem_cons_self _ _)
    have step := threadAssignment_paint hnew hsq hmax d hx hy
    have hunit : unitOfWork newGrid prev (h0 ++ paint n d, 0) c = .ok (h0 ++ paint n
        (fun a b => if a = c.1 ∧ b = c.2 then lifeStep n (prev.cellOr h0) c.1 c.2 else d a b),
          0) := by
      simp only [unitOfWork, wgAdd, bind, Except.bind, zero_add,
        show ¬ ((1 : Int) < 0) by decide, if_false, step]
    unfold runUnits at ih ⊢
    rw [List.foldlM_cons, hunit]
    simp only [bind, Except.bind]
    rw [ih (fun c1 h1 => hc c1 (List.mem_cons_of_mem _ h1))]
    congr 3
    apply paint_congr
    intro a b _ _
    by_cases hm : (a, b) ∈ cs
    · have hm2 : (a, b) ∈ c :: cs := List.mem_cons_of_mem _ hm
      simp only [hm, hm2, if_true]
    · by_cases he : a = c.1 ∧ b = c.2
      · have hm2 : (a, b) ∈ c :: cs := by
          obtain ⟨e1, e2⟩ := he
          subst e1 e2
          exact List.mem_cons_self _ _
        rw [if_neg hm, if_pos he, if_pos hm2, he.1, he.2]
      · have hm2 : ¬ (a, b) ∈ c :: cs := by
          intro hmem
          rcases List.mem_cons.mp hmem with h1 | h1
          · apply he
            rw [← h1]
            exact ⟨rfl, rfl⟩
          · exact hm h1
        simp only [hm, hm2, he, if_false]

/-! ## `nextGen` in closed form -/

theorem nextGenInOrder_eq {h : Heap} {g : Grid} {n : Nat} (hsq : g.IsSquare h n)
    (hmax : 2 * (n : Int) ≤ maxInt) {coords : List (Nat × Nat)}
    (hc : ∀ c ∈ coords, c.1 < n ∧ c.2 < n) :
    nextGenInOrder coords h g = .ok
      ({ squares := freshRows h.length n, width := n, height := n },
        h ++ paint n
          (fun a b => if (a, b) ∈ coords then lifeStep n (g.cellOr h) a b else false)) := by
  unfold nextGenInOrder
  rw [hsq.1, hsq.2.1, EmptyGrid_eq h n n (by omega) (by omega)]
  simp only [Int.toNat_ofNat, paint_false, bind, Except.bind]
  rw [runUnits_paint rfl hsq hmax coords hc]
  rfl

theorem mem_xMajor {w ht a b : Nat} : (a, b) ∈ xMajor w ht ↔ a < w ∧ b < ht := by
  unfold xMajor
  rw [show List.product (List.range w) (List.range ht) = List.range w ×ˢ List.range ht from rfl,
    List.mem_product, List.mem_range, List.mem_range]

theorem nextGen_eq {h : Heap} {g : Grid} {n : Nat} (hsq : g.IsSquare h n)
    (hmax : 2 * (n : Int) ≤ maxInt) :
    nextGen h g = .ok
      ({ squares := freshRows h.length n, width := n, height := n },
        h ++ paint n (lifeStep n (g.cellOr h))) := by
  rw [nextGen_eq_inOrder, hsq.1, hsq.2.1, Int.toNat_ofNat,
    nextGenInOrder_eq hsq hmax (fun c hc => mem_xMajor.mp hc)]
  congr 3
  apply paint_congr
  intro a b ha hb
  rw [if_pos (mem_xMajor.mpr ⟨ha, hb⟩)]

theorem fresh_isSquare (h : Heap) (n : Nat) (d : Nat → Nat → Bool) :
    Grid.IsSquare (h ++ paint n d)
      { squares := freshRows h.length n, width := n, height := n } n := by
  refine ⟨rfl, rfl, by simp [freshRows], ?_⟩
  intro s hs
  simp only [freshRows, List.mem_map, List.mem_range] at hs
  obtain ⟨x, hx, rfl⟩ := hs
  rw [row_paint h n d hx]
  simp

theorem fresh_cellOr (h : Heap) (n : Nat) (d : Nat → Nat → Bool) {a b : Nat}
    (ha : a < n) (hb : b < n) :
    Grid.cellOr (h ++ paint n d)
      { squares := freshRows h.length n, width := n, height := n } a b = d a b := by
  unfold Grid.cellOr Grid.cell
  simp only [freshRows_getElem? h.length ha, row_paint h n d ha]
  simp [List.getElem?_map, List.getElem?_range hb]

/-! ## Periodicity of the lookup -/

theorem Alive_rem_congr (h : Heap) (g : Grid) {x x1 y y1 : Int}
    (hx : goRem (wrapInt (x + g.width)) g.width = goRem (wrapInt (x1 + g.width)) g.width)
    (hy : goRem (wrapInt (y + g.height)) g.height = goRem (wrapInt (y1 + g.height)) g.height) :
    g.Alive h x y = g.Alive h x1 y1 := by
  simp only [Grid.Alive]
  rw [hx, hy]

theorem goRem_shift {x w : Int} (hw : 0 < w) (hx : -w ≤ x) (hx2 : x + 2 * w ≤ maxInt) :
    goRem (wrapInt (x + w)) w = goRem (wrapInt (x + w + w)) w := by
  have hm : x + 2 * w ≤ 9223372036854775807 := hx2
  have e1 : wrapInt (x + w) = x + w :=
    wrapInt_eq (by unfold minInt; omega) (by unfold maxInt; omega)
  have e2 : wrapInt (x + w + w) = x + w + w :=
    wrapInt_eq (by unfold minInt; omega) (by unfold maxInt; omega)
  have hw0 : w ≠ 0 := by omega
  rw [e1, e2]
  simp only [goRem, hw0, if_false]
  have e3 : (x + w + w) % w = (x + w) % w := Int.add_emod_self
  rw [Int.tmod_eq_emod (by omega) (by omega), Int.tmod_eq_emod (by omega) (by omega), e3]

theorem tmod_normalize {x : Int} {n : Nat} (hn : 0 < n) :
    (x.tmod n + n).tmod n = x % (n : Int) := by
  have hnpos : (0 : Int) < n := by omega
  have h1 : -(n : Int) < x.tmod n := by
    cases x with
    | ofNat m =>
      have : 0 ≤ (Int.ofNat m).tmod (n : Int) := Int.tmod_nonneg (n : Int) (Int.ofNat_nonneg m)
      omega
    | negSucc m =>
      have e : (Int.negSucc m).tmod (n : Int) = -(((m + 1) % n : Nat) : Int) := rfl
      have := Nat.mod_lt (m + 1) hn
      omega
  rw [Int.tmod_eq_emod (by omega) (by omega), Int.add_emod_self, Int.tmod_def,
    Int.sub_eq_add_neg, ← Int.mul_neg, Int.add_mul_emod_self_left]

/-! ## Generations -/

theorem liveNeighbours_congr {n : Nat} (hn : 0 < n) {d d1 : Nat → Nat → Bool}
    (hd : ∀ a b, a < n → b < n → d a b = d1 a b) (x y : Nat) :
    liveNeighbours n d x y = liveNeighbours n d1 x y := by
  unfold liveNeighbours
  apply List.countP_congr
  intro p _
  have hn0 : (n : Int) ≠ 0 := by omega
  have hnpos : (0 : Int) < n := by omega
  have h1 := Int.emod_nonneg ((x : Int) + p.1) hn0
  have h2 := Int.emod_lt_of_pos ((x : Int) + p.1) hnpos
  have h3 := Int.emod_nonneg ((y : Int) + p.2) hn0
  have h4 := Int.emod_lt_of_pos ((y : Int) + p.2) hnpos
  rw [hd _ _ (by omega) (by omega)]

theorem lifeStep_congr {n : Nat} {d d1 : Nat → Nat → Bool}
    (hd : ∀ a b, a < n → b < n → d a b = d1 a b) :
    ∀ x y, x < n → y < n → lifeStep n d x y = lifeStep n d1 x y := by
  intro x y hx hy
  unfold lifeStep
  rw [liveNeighbours_congr (by omega) hd, hd x y hx hy]

theorem lifeSteps_congr {n : Nat} (k : Nat) : ∀ {d d1 : Nat → Nat → Bool},
    (∀ a b, a < n → b < n → d a b = d1 a b) →
    ∀ x y, x < n → y < n → lifeSteps n k d x y = lifeSteps n k d1 x y := by
  induction k with
  | zero => intro d d1 hd; exact hd
  | succ k ih => intro d d1 hd; exact ih (lifeStep_congr hd)

theorem generations_eq {n : Nat} (hmax : 2 * (n : Int) ≤ maxInt) (k : Nat) :
    ∀ (h : Heap) (g : Grid), g.IsSquare h n →
      ∃ g1 more, generations k h g = .ok (g1, h ++ more) ∧ g1.IsSquare (h ++ more) n ∧
        ∀ a b, a < n → b < n → g1.cellOr (h ++ more) a b = lifeSteps n k (g.cellOr h) a b := by
  induction k with
  | zero =>
    intro h g hsq
    exact ⟨g, [], by simp [generations, pure, Except.pure], by simpa using hsq,
      by intro a b _ _; simp [lifeSteps]⟩
  | succ k ih =>
    intro h g hsq
    obtain ⟨g2, more, he, hsq2, hcell⟩ := ih _ _ (fresh_isSquare h n (lifeStep n (g.cellOr h)))
    refine ⟨g2, paint n (lifeStep n (g.cellOr h)) ++ more, ?_, ?_, ?_⟩
    · unfold generations
      rw [nextGen_eq hsq hmax]
      simp only [bind, Except.bind]
      rw [he, List.append_assoc]
    · rw [← List.append_assoc]; exact hsq2
    · intro a b ha hb
      rw [← List.append_assoc, hcell a b ha hb]
      exact lifeSteps_congr k (fun a b ha hb => fresh_cellOr h n _ ha hb) a b ha hb

theorem cell_of_cellOr {h : Heap} {g : Grid} {n a b : Nat} (hsq : g.IsSquare h n)
    (ha : a < n) (hb : b < n) : g.cell h a b = some (g.cellOr h a b) := by
  obtain ⟨s, hs, hv⟩ := hsq.cell_eq ha hb
  simp only [Grid.cell, hs, hv]

theorem lifeStep_dead (n : Nat) (x y : Nat) : lifeStep n (fun _ _ => false) x y = false := by
  simp [lifeStep, liveNeighbours, lifeRule]

theorem lifeSteps_dead (n k : Nat) : ∀ x y, x < n → y < n →
    lifeSteps n k (fun _ _ => false) x y = false := by
  induction k with
  | zero => intro x y _ _; rfl
  | succ k ih =>
    intro x y hx hy
    show lifeSteps n k (lifeStep n (fun _ _ => false)) x y = false
    have hd : ∀ a b, a < n → b < n →
        lifeStep n (fun _ _ => false) a b = (fun _ _ => false : Nat → Nat → Bool) a b :=
      fun a b _ _ => lifeStep_dead n a b
    rw [lifeSteps_congr k hd x y hx hy]
    exact ih x y hx hy

theorem EmptyGrid_square (h : Heap) (n : Nat) :
    EmptyGrid h n n = .ok
      ({ squares := freshRows h.length n, width := n, height := n },
        h ++ paint n (fun _ _ => false)) := by
  rw [EmptyGrid_eq h n n (by omega) (by omega), Int.toNat_ofNat, paint_false]

/-! ## `GliderGrid` in closed form -/

theorem assign_paint {h0 : Heap} {newGrid : Grid} {n : Nat}
    (hnew : newGrid.squares = freshRows h0.length n) (d : Nat → Nat → Bool) {x y : Nat}
    (hx : x < n) (hy : y < n) (v : Bool) :
    newGrid.assign (h0 ++ paint n d) (x : Int) (y : Int) v
      = .ok (h0 ++ paint n (fun a b => if a = x ∧ b = y then v else d a b)) := by
  unfold Grid.assign
  rw [hnew, index_freshRows _ hx]
  exact store_paint h0 n d hx hy v

theorem GliderGrid_eq (h : Heap) (n : Nat) (hn : 5 ≤ n) (hmax : (n : Int) ≤ maxInt) :
    GliderGrid h n n = .ok
      ({ squares := freshRows h.length n, width := n, height := n },
        h ++ paint n (gliderMatrix n)) := by
  have hm : (n : Int) ≤ 9223372036854775807 := hmax
  have hc : (n : Int).tdiv 2 = ((n / 2 : Nat) : Int) := by
    rw [Int.tdiv_eq_ediv (by omega) (by omega)]; omega
  have w0 : wrapInt ((n / 2 : Nat) : Int) = ((n / 2 : Nat) : Int) :=
    wrapInt_eq (by unfold minInt; omega) (by unfold maxInt; omega)
  have w1 : wrapInt (((n / 2 : Nat) : Int) - 1) = ((n / 2 - 1 : Nat) : Int) := by
    rw [wrapInt_eq (by unfold minInt; omega) (by unfold maxInt; omega)]; omega
  have w2 : wrapInt (((n / 2 : Nat) : Int) + 1) = ((n / 2 + 1 : Nat) : Int) := by
    rw [wrapInt_eq (by unfold minInt; omega) (by unfold maxInt; omega)]; omega
  have hgt : (n : Int) > 4 := by omega
  have b0 : n / 2 < n := by omega
  have b1 : n / 2 - 1 < n := by omega
  have b2 : n / 2 + 1 < n := by omega
  unfold GliderGrid
  rw [EmptyGrid_square, ok_bind]
  have h2 : goDiv (n : Int) 2 = .ok ((n / 2 : Nat) : Int) := by
    simp only [goDiv, show (2 : Int) ≠ 0 by decide, if_false, hc, w0]
  have hcond : (n : Int) > 4 ∧ (n : Int) > 4 := ⟨hgt, hgt⟩
  simp only []
  rw [if_pos hcond, h2, ok_bind, ok_bind, w1, w2, assign_paint rfl _ b0 b1, ok_bind,
    assign_paint rfl _ b2 b0, ok_bind, assign_paint rfl _ b1 b2, ok_bind,
    assign_paint rfl _ b0 b2, ok_bind, assign_paint rfl _ b2 b2, ok_bind]
  refine congrArg (fun m => (Except.ok
    ({ squares := freshRows h.length n, width := n, height := n }, h ++ m) :
      Result (Grid × Heap))) ?_
  apply paint_congr
  intro a b _ _
  simp only [gliderMatrix, gliderCells, List.mem_cons, Prod.mk.injEq, List.mem_singleton,
    List.not_mem_nil, or_false]
  by_cases e1 : a = n / 2 + 1 ∧ b = n / 2 + 1
  · simp [e1]
  · by_cases e2 : a = n / 2 ∧ b = n / 2 + 1
    · simp [e2]
    · by_cases e3 : a = n / 2 - 1 ∧ b = n / 2 + 1
      · simp [e3]
      · by_cases e4 : a = n / 2 + 1 ∧ b = n / 2
        · simp [e4]
        · by_cases e5 : a = n / 2 ∧ b = n / 2 - 1
          · simp [e5]
          · simp [e1, e2, e3, e4, e5]

/-! ## The glider on the 5-by-5 grid -/

theorem gliderPhase_zero : ∀ a, a < 5 → ∀ b, b < 5 →
    gliderMatrix 5 a b = matrixOf (gliderPhase 0) a b := by
  decide

theorem gliderPhase_step : ∀ k, k < 4 → ∀ a, a < 5 → ∀ b, b < 5 →
    lifeStep 5 (matrixOf (gliderPhase k)) a b = matrixOf (gliderPhase (k + 1)) a b := by
  decide

theorem gliderPhase_four : ∀ a, a < 5 → ∀ b, b < 5 →
    matrixOf (gliderPhase 4) a b
      = gliderMatrix 5 (((a : Int) - 1) % 5).toNat (((b : Int) - 1) % 5).toNat := by
  decide

theorem glider_four_steps : ∀ a b, a < 5 → b < 5 →
    lifeSteps 5 4 (gliderMatrix 5) a b = matrixOf (gliderPhase 4) a b := by
  intro a b ha hb
  have s0 : ∀ a b, a < 5 → b < 5 → gliderMatrix 5 a b = matrixOf (gliderPhase 0) a b :=
    fun a b ha hb => gliderPhase_zero a ha b hb
  have st : ∀ k, k < 4 → ∀ a b, a < 5 → b < 5 →
      lifeStep 5 (matrixOf (gliderPhase k)) a b = matrixOf (gliderPhase (k + 1)) a b :=
    fun k hk a b ha hb => gliderPhase_step k hk a ha b hb
  rw [lifeSteps_congr 4 s0 a b ha hb]
  show lifeSteps 5 3 (lifeStep 5 (matrixOf (gliderPhase 0))) a b = _
  rw [lifeSteps_congr 3 (st 0 (by decide)) a b ha hb]
  show lifeSteps 5 2 (lifeStep 5 (matrixOf (gliderPhase 1))) a b = _
  rw [lifeSteps_congr 2 (st 1 (by decide)) a b ha hb]
  show lifeSteps 5 1 (lifeStep 5 (matrixOf (gliderPhase 2))) a b = _
  rw [lifeSteps_congr 1 (st 2 (by decide)) a b ha hb]
  show lifeSteps 5 0 (lifeStep 5 (matrixOf (gliderPhase 3))) a b = _
  rw [lifeSteps_congr 0 (st 3 (by decide)) a b ha hb]
  rfl

/-! ## Writes of `nextGen` stay in the rows it allocates -/

theorem foldlM_inv {σ α : Type} (f : σ → α → Result σ) (P : σ → Prop)
    (hstep : ∀ st c st1, f st c = .ok st1 → P st → P st1) :
    ∀ (cs : List α) (st st1 : σ), cs.foldlM f st = .ok st1 → P st → P st1 := by
  intro cs
  induction cs with
  | nil =>
    intro st st1 he hp
    simp only [List.foldlM, pure, Except.pure] at he
    cases he
    exact hp
  | cons c cs ih =>
    intro st st1 he hp
    rw [List.foldlM_cons] at he
    cases hf : f st c with
    | error e => rw [hf] at he; cases he
    | ok s1 =>
      rw [hf, ok_bind] at he
      exact ih s1 st1 he (hstep st c s1 hf hp)

theorem store_eq_set {h h1 : Heap} {s : BoolSlice} {i : Int} {v : Bool}
    (he : store h s i v = .ok h1) : ∃ a r, s = some a ∧ h1 = h.set a r := by
  unfold store at he
  cases s with
  | none => cases he
  | some a =>
    simp only at he
    split at he
    · cases he
      exact ⟨a, _, rfl, rfl⟩
    · cases he

theorem unitOfWork_extends {h : Heap} {newGrid prev : Grid} {H : Nat}
    (hnew : newGrid.squares = freshRows h.length H) (st : Heap × Int) (c : Nat × Nat)
    (st1 : Heap × Int) (he : unitOfWork newGrid prev st c = .ok st1)
    (hp : ∃ m, st.1 = h ++ m) : ∃ m, st1.1 = h ++ m := by
  obtain ⟨m, hm⟩ := hp
  unfold unitOfWork at he
  cases hw : wgAdd st.2 1 with
  | error e => rw [hw] at he; cases he
  | ok wg =>
    rw [hw, ok_bind] at he
    unfold Grid.threadAssignment at he
    cases hn : prev.Next st.1 (c.1 : Int) (c.2 : Int) with
    | error e => rw [hn] at he; cases he
    | ok v =>
      rw [hn, ok_bind] at he
      cases hi : index newGrid.squares (c.1 : Int) with
      | error e => rw [hi] at he; cases he
      | ok row =>
        rw [hi, ok_bind] at he
        cases hs : store st.1 row (c.2 : Int) v with
        | error e => rw [hs] at he; cases he
        | ok h2 =>
          rw [hs, ok_bind] at he
          cases hd : wgDone wg with
          | error e => rw [hd] at he; cases he
          | ok wg2 =>
            rw [hd, ok_bind] at he
            cases he
            obtain ⟨a, r, hrow, hset⟩ := store_eq_set hs
            have hmem := index_mem hi
            rw [hnew, hrow] at hmem
            simp only [freshRows, List.mem_map, List.mem_range] at hmem
            obtain ⟨k, _, hk⟩ := hmem
            refine ⟨m.set k r, ?_⟩
            have ha : a = h.length + k := by
              have := Option.some.inj hk
              omega
            show h2 = _
            rw [hset, hm, ha, List.set_append_right _ _ (by omega), Nat.add_sub_cancel_left]

theorem nextGen_extends {h h1 : Heap} {g g1 : Grid} (he : nextGen h g = .ok (g1, h1)) :
    ∃ m, h1 = h ++ m := by
  rw [nextGen_eq_inOrder] at he
  unfold nextGenInOrder at he
  rw [EmptyGrid_outcome] at he
  split at he
  · cases he
  · rw [ok_bind] at he
    simp only at he
    generalize hr : runUnits _ g _ _ = r at he
    cases r with
    | error e => cases he
    | ok st =>
      rw [ok_bind] at he
      have hp := foldlM_inv _ (fun st : Heap × Int => ∃ m, st.1 = h ++ m)
        (unitOfWork_extends (h := h) (H := g.height.toNat) rfl) _ _ _ hr ⟨_, rfl⟩
      obtain ⟨m, hm⟩ := hp
      cases hw : wgWait st.2 with
      | error e => simp only [hw] at he; cases he
      | ok u =>
        simp only [hw, ok_bind, pure, Except.pure] at he
        cases he
        exact ⟨m, hm⟩

theorem cell_congr {h h1 : Heap} {g : Grid} (hrows : ∀ s ∈ g.squares, h1.row s = h.row s)
    (a b : Nat) : g.cell h1 a b = g.cell h a b := by
  unfold Grid.cell
  cases hs : g.squares[a]? with
  | none => rfl
  | some s => simp only [hrows s (List.getElem?_mem hs)]

theorem row_append_of_lt (h more : Heap) {a : Nat} (ha : a < h.length) :
    Heap.row (h ++ more) (some a) = h.row (some a) := by
  simp [Heap.row, List.getElem?_append_left ha]

theorem Grid.IsSquare.append {h : Heap} {g : Grid} {n : Nat} (hsq : g.IsSquare h n)
    (more : List (List Bool)) : g.IsSquare (h ++ more) n := by
  refine ⟨hsq.1, hsq.2.1, hsq.2.2.1, ?_⟩
  intro s hs
  rw [hsq.row_append more s hs]
  exact hsq.2.2.2 s hs

theorem cellOr_append {h : Heap} {g : Grid} {n : Nat} (hsq : g.IsSquare h n)
    (more : List (List Bool)) (a b : Nat) : g.cellOr (h ++ more) a b = g.cellOr h a b := by
  unfold Grid.cellOr
  rw [cell_congr (hsq.row_append more)]

theorem gliderMatrix_five : ∀ a, a < 5 → ∀ b, b < 5 →
    gliderMatrix 5 a b = decide ((a, b) ∈ [(2, 1), (3, 2), (1, 3), (2, 3), (3, 3)]) := by
  decide

theorem gliderPhase_four_cells : ∀ a, a < 5 → ∀ b, b < 5 →
    matrixOf (gliderPhase 4) a b
      = decide ((a, b) ∈ [(3, 2), (4, 3), (2, 4), (3, 4), (4, 4)]) := by
  decide

/-! ## One unit of work -/

theorem row_set (h : Heap) (a : Nat) (r : List Bool) (s : BoolSlice) :
    Heap.row (h.set a r) s = if s = some a ∧ a < h.length then r else h.row s := by
  cases s with
  | none => simp [Heap.row]
  | some b =>
    simp only [Heap.row, List.getD_eq_getElem?_getD, List.getElem?_set, Option.some.injEq]
    by_cases hab : a = b
    · subst hab
      by_cases ha : a < h.length
      · simp [ha]
      · simp [ha, List.getElem?_eq_none (Nat.le_of_not_lt ha)]
    · have hba : ¬ b = a := fun e => hab e.symm
      simp [hab, hba]

theorem Grid.IsSquare.row_address {h : Heap} {g : Grid} {n x : Nat} (hsq : g.IsSquare h n)
    (hx : x < n) : ∃ a, g.squares[x]? = some (some a) ∧ a < h.length ∧
      (h.row (some a)).length = n := by
  have hx1 : x < g.squares.length := by rw [hsq.2.2.1]; exact hx
  have hlen := hsq.2.2.2 _ (List.getElem_mem hx1)
  cases hs : g.squares[x] with
  | none =>
    rw [hs] at hlen
    simp [Heap.row] at hlen
    omega
  | some a =>
    rw [hs] at hlen
    refine ⟨a, by rw [List.getElem?_eq_getElem hx1, hs], ?_, hlen⟩
    by_contra ha
    simp [Heap.row, List.getElem?_eq_none (Nat.le_of_not_lt ha)] at hlen
    omega

theorem threadAssignment_square {h : Heap} {g prev : Grid} {n x y : Nat} {a : Nat}
    (hprev : prev.IsSquare h n) (hmax : 2 * (n : Int) ≤ maxInt)
    (hx : x < n) (hy : y < n) (ha : g.squares[x]? = some (some a))
    (hlen : (h.row (some a)).length = n) {wg : Int} (hwg : 1 ≤ wg) :
    g.threadAssignment h prev (x : Int) (y : Int) wg = .ok
      (h.set a ((h.row (some a)).set y (lifeStep n (prev.cellOr h) x y)), wg - 1) := by
  unfold Grid.threadAssignment
  have hi : index g.squares (x : Int) = .ok (some a) := index_eq (by omega) (by simpa using ha)
  have hc : 0 ≤ (y : Int) ∧ (y : Int) < ((h.row (some a)).length : Int) := by
    rw [hlen]; omega
  have hd : wgDone wg = .ok (wg - 1) := by
    unfold wgDone wgAdd
    rw [if_neg (by omega)]
    rfl
  rw [Next_square hprev hmax hx hy, ok_bind, hi, ok_bind]
  simp only [store, hc, and_self, if_true, Int.toNat_ofNat]
  rw [ok_bind, hd, ok_bind]
  rfl

theorem row_replicate (h : Heap) (H : Nat) (r : List Bool) {i : Nat} (hi : i < H) :
    Heap.row (h ++ List.replicate H r) (some (h.length + i)) = r := by
  show List.getD (h ++ List.replicate H r) (h.length + i) [] = r
  rw [List.getD_eq_getElem?_getD, List.getElem?_append_right (by omega),
    Nat.add_sub_cancel_left, List.getElem?_replicate, if_pos hi]
  rfl

/-! ## Translation on the torus -/

theorem shift_index {n : Nat} (hn : 0 < n) (x : Nat) (i a : Int) :
    ((((((x : Int) + i) % (n : Int)).toNat : Nat) : Int) - a) % (n : Int)
      = ((((((x : Int) - a) % (n : Int)).toNat : Nat) : Int) + i) % (n : Int) := by
  have hn0 : (n : Int) ≠ 0 := by omega
  rw [Int.toNat_of_nonneg (Int.emod_nonneg _ hn0), Int.toNat_of_nonneg (Int.emod_nonneg _ hn0),
    Int.sub_eq_add_neg, Int.emod_add_emod, Int.emod_add_emod]
  congr 1
  omega

theorem lifeStep_shift {n : Nat} (hn : 0 < n) (a b : Int) (d : Nat → Nat → Bool) (x y : Nat) :
    lifeStep n (shiftMatrix n a b d) x y = shiftMatrix n a b (lifeStep n d) x y := by
  unfold lifeStep liveNeighbours
  show lifeRule (List.countP (fun p => shiftMatrix n a b d _ _) neighbourOffsets)
      (shiftMatrix n a b d x y)
    = lifeRule (List.countP (fun p => d _ _) neighbourOffsets) (shiftMatrix n a b d x y)
  congr 1
  apply List.countP_congr
  intro p _
  simp only [shiftMatrix]
  rw [shift_index hn x p.1 a, shift_index hn y p.2 b]

/-! ## The text of a grid -/

theorem foldl_emit (c : Char) (k : Nat) : ∀ buf : List Char,
    (List.range k).foldl (fun (buf : List Char) (_ : Nat) => buf ++ [c]) buf
      = buf ++ List.replicate k c := by
  induction k with
  | zero => intro buf; simp
  | succ k ih =>
    intro buf
    rw [List.range_succ, List.foldl_append, ih, List.replicate_succ']
    simp

theorem foldlM_emit {α : Type} (step : List Char → α → Result (List Char))
    (f : α → List Char) (l : List α) :
    (∀ buf a, a ∈ l → step buf a = .ok (buf ++ f a)) →
    ∀ buf, l.foldlM step buf = .ok (buf ++ l.flatMap f) := by
  induction l with
  | nil => intro _ buf; simp [pure, Except.pure]
  | cons a l ih =>
    intro hstep buf
    rw [List.foldlM_cons, hstep buf a (List.mem_cons_self _ _), ok_bind,
      ih (fun buf b hb => hstep buf b (List.mem_cons_of_mem _ hb)), List.flatMap_cons,
      List.append_assoc]

theorem flatMap_unit {α β : Type} (f : α → β) (l : List α) :
    l.flatMap (fun a => [f a]) = l.map f := by
  induction l with
  | nil => rfl
  | cons a l ih => rw [List.flatMap_cons, ih]; rfl

theorem String_square {h : Heap} {g : Grid} {n : Nat} (hsq : g.IsSquare h n)
    (hmax : 2 * (n : Int) ≤ maxInt) :
    g.String h = .ok (List.replicate (n + 2) '-' ++ ['\n'] ++
      (List.range n).flatMap (fun i => ['|'] ++
        (List.range n).flatMap (fun j => [if g.cellOr h j i then '*' else ' ']) ++
          ['|'] ++ ['\n']) ++
      List.replicate (n + 2) '-' ++ ['\n']) := by
  have hm : 2 * (n : Int) ≤ 9223372036854775807 := hmax
  have hw : (wrapInt ((n : Int) + 2)).toNat = n + 2 := by
    rw [wrapInt_eq (by unfold minInt; omega) (by unfold maxInt; omega)]
    omega
  have inner : ∀ i, i < n → ∀ buf : List Char,
      (List.range n).foldlM (fun (buf : List Char) (j : Nat) => do
        let row ← index g.squares (j : Int)
        let cell ← index (h.row row) (i : Int)
        let b := if cell then '*' else ' '
        pure (buf ++ [b])) buf
      = .ok (buf ++ (List.range n).flatMap
          (fun j => [if g.cellOr h j i then '*' else ' '])) := by
    intro i hi buf
    apply foldlM_emit
    intro buf j hj
    obtain ⟨s, hs, hv⟩ := hsq.cell_eq (List.mem_range.mp hj) hi
    rw [index_eq (by omega) (by simpa using hs), ok_bind,
      index_eq (by omega) (by simpa using hv), ok_bind]
    rfl
  have outer : ∀ buf : List Char,
      (List.range n).foldlM (fun (buf : List Char) (i : Nat) => do
        let buf := buf ++ ['|']
        let buf ← (List.range n).foldlM (fun (buf : List Char) (j : Nat) => do
          let row ← index g.squares (j : Int)
          let cell ← index (h.row row) (i : Int)
          let b := if cell then '*' else ' '
          pure (buf ++ [b])) buf
        let buf := buf ++ ['|']
        pure (buf ++ ['\n'])) buf
      = .ok (buf ++ (List.range n).flatMap (fun i => ['|'] ++
          (List.range n).flatMap (fun j => [if g.cellOr h j i then '*' else ' ']) ++
            ['|'] ++ ['\n'])) := by
    intro buf
    apply foldlM_emit
    intro buf i hi
    simp only []
    rw [inner i (List.mem_range.mp hi), ok_bind]
    simp only [pure, Except.pure, List.append_assoc]
  unfold Grid.String
  simp only [hsq.1, hsq.2.1, hw, Int.toNat_ofNat, foldl_emit, List.nil_append]
  rw [outer, ok_bind]
  rfl

/-! ## The glider on the unbounded plane -/

theorem gliderRel_inWindow : ∀ k, k < 5 → InWindow (gliderRel k) := by
  decide

theorem planeStep_far {R : List (Int × Int)} (hR : InWindow R) {u v : Int}
    (hfar : u < -2 ∨ 3 < u ∨ v < -2 ∨ 3 < v) : planeStep R u v = false := by
  have h0 : planeCount R u v = 0 := by
    unfold planeCount
    rw [List.countP_eq_zero]
    intro p hp
    obtain ⟨a1, a2, b1, b2⟩ := neighbourOffsets_bound p hp
    have hmem : (u + p.1, v + p.2) ∉ R := by
      intro hm
      obtain ⟨c1, c2, c3, c4⟩ := hR _ hm
      simp only at c1 c2 c3 c4
      omega
    simp [hmem]
  have h1 : (u, v) ∉ R := by
    intro hm
    obtain ⟨c1, c2, c3, c4⟩ := hR _ hm
    simp only at c1 c2 c3 c4
    omega
  simp [planeStep, h0, h1, lifeRule]

theorem not_mem_far {R : List (Int × Int)} (hR : InWindow R) {u v : Int}
    (hfar : u < -2 ∨ 3 < u ∨ v < -2 ∨ 3 < v) : (u, v) ∉ R := by
  intro hm
  obtain ⟨c1, c2, c3, c4⟩ := hR _ hm
  simp only at c1 c2 c3 c4
  omega

theorem planeStep_glider_window : ∀ k, k < 4 → ∀ u : Int, -2 ≤ u → u ≤ 3 →
    ∀ v : Int, -2 ≤ v → v ≤ 3 →
      planeStep (gliderRel k) u v = decide ((u, v) ∈ gliderRel (k + 1)) := by
  decide

theorem planeStep_glider {k : Nat} (hk : k < 4) (u v : Int) :
    planeStep (gliderRel k) u v = decide ((u, v) ∈ gliderRel (k + 1)) := by
  by_cases hfar : u < -2 ∨ 3 < u ∨ v < -2 ∨ 3 < v
  · rw [planeStep_far (gliderRel_inWindow k (by omega)) hfar]
    have := not_mem_far (gliderRel_inWindow (k + 1) (by omega)) hfar
    simp [this]
  · exact planeStep_glider_window k hk u (by omega) (by omega) v (by omega) (by omega)

/-! ## From the torus to the plane -/

theorem wrap_cases {n : Nat} (x : Nat) (hx : x < n) (i : Int) (h1 : -1 ≤ i) (h2 : i ≤ 1) :
    ((((((x : Int) + i) % (n : Int)).toNat : Nat) : Int) = (x : Int) + i ∨
      (((((x : Int) + i) % (n : Int)).toNat : Nat) : Int) = (x : Int) + i + n ∨
      (((((x : Int) + i) % (n : Int)).toNat : Nat) : Int) = (x : Int) + i - n) ∧
    ((((x : Int) + i) % (n : Int)).toNat) < n := by
  have hn0 : (n : Int) ≠ 0 := by omega
  have hnpos : (0 : Int) < n := by omega
  have hnn := Int.emod_nonneg ((x : Int) + i) hn0
  have hlt := Int.emod_lt_of_pos ((x : Int) + i) hnpos
  rw [Int.toNat_of_nonneg hnn]
  refine ⟨?_, by omega⟩
  by_cases c1 : (x : Int) + i < 0
  · right; left
    rw [← Int.add_emod_self, Int.emod_eq_of_lt (by omega) (by omega)]
  · by_cases c2 : (x : Int) + i < n
    · left
      exact Int.emod_eq_of_lt (by omega) c2
    · right; right
      have e : (x : Int) + i = ((x : Int) + i - n) + n := by omega
      rw [e, Int.add_emod_self, Int.emod_eq_of_lt (by omega) (by omega)]
      omega

theorem planePos_wrap {n : Nat} (hn : 6 ≤ n) (x : Nat) (hx : x < n) (i : Int)
    (h1 : -1 ≤ i) (h2 : i ≤ 1) (r : Int) (hr1 : -1 ≤ r) (hr2 : r ≤ 2) :
    planePos n ((((x : Int) + i) % (n : Int)).toNat) - ((n / 2 : Nat) : Int) = r
      ↔ planePos n x - ((n / 2 : Nat) : Int) + i = r := by
  obtain ⟨hc, hlt⟩ := wrap_cases x hx i h1 h2
  generalize ((((x : Int) + i) % (n : Int)).toNat) = a at hc hlt
  unfold planePos
  split_ifs <;> omega

theorem mem_transfer {R : List (Int × Int)} (hR : InWindow R) {u v u1 v1 : Int}
    (hu : ∀ r : Int, -1 ≤ r → r ≤ 2 → (u1 = r ↔ u = r))
    (hv : ∀ r : Int, -1 ≤ r → r ≤ 2 → (v1 = r ↔ v = r)) :
    (u1, v1) ∈ R ↔ (u, v) ∈ R := by
  constructor
  · intro hm
    obtain ⟨c1, c2, c3, c4⟩ := hR _ hm
    simp only at c1 c2 c3 c4
    have e1 : u = u1 := (hu u1 c1 c2).mp rfl
    have e2 : v = v1 := (hv v1 c3 c4).mp rfl
    rw [e1, e2]
    exact hm
  · intro hm
    obtain ⟨c1, c2, c3, c4⟩ := hR _ hm
    simp only at c1 c2 c3 c4
    have e1 : u1 = u := (hu u c1 c2).mpr rfl
    have e2 : v1 = v := (hv v c3 c4).mpr rfl
    rw [e1, e2]
    exact hm

theorem lifeStep_relMatrix {n : Nat} (hn : 6 ≤ n) {R : List (Int × Int)} (hR : InWindow R)
    {x y : Nat} (hx : x < n) (hy : y < n) :
    lifeStep n (relMatrix n R) x y
      = planeStep R (planePos n x - ((n / 2 : Nat) : Int)) (planePos n y - ((n / 2 : Nat) : Int)) := by
  unfold lifeStep liveNeighbours planeStep planeCount
  show lifeRule (List.countP (fun p => relMatrix n R _ _) neighbourOffsets) (relMatrix n R x y)
    = lifeRule _ (relMatrix n R x y)
  congr 1
  apply List.countP_congr
  intro p hp
  obtain ⟨a1, a2, b1, b2⟩ := neighbourOffsets_bound p hp
  unfold relMatrix
  rw [decide_eq_decide.mpr (mem_transfer hR
    (fun r hr1 hr2 => planePos_wrap hn x hx p.1 a1 a2 r hr1 hr2)
    (fun r hr1 hr2 => planePos_wrap hn y hy p.2 b1 b2 r hr1 hr2))]

/-! ## The glider on the torus -/

theorem gliderMatrix_rel {n : Nat} (hn : 6 ≤ n) {a b : Nat} (ha : a < n) (hb : b < n) :
    gliderMatrix n a b = relMatrix n (gliderRel 0) a b := by
  unfold gliderMatrix relMatrix
  rw [decide_eq_decide]
  simp only [gliderCells, gliderRel, List.mem_cons, Prod.mk.injEq, List.mem_singleton,
    List.not_mem_nil, or_false, planePos]
  split_ifs <;> omega

theorem gliderRel_shift (u v : Int) :
    (u + -1, v + -1) ∈ gliderRel 0 ↔ (u, v) ∈ gliderRel 4 := by
  simp only [gliderRel, List.mem_cons, Prod.mk.injEq, List.mem_singleton,
    List.not_mem_nil, or_false]
  omega

theorem lifeSteps_succ (n : Nat) (k : Nat) : ∀ d : Nat → Nat → Bool,
    lifeSteps n (k + 1) d = lifeStep n (lifeSteps n k d) := by
  induction k with
  | zero => intro d; rfl
  | succ k ih =>
    intro d
    show lifeSteps n (k + 1) (lifeStep n d) = lifeStep n (lifeSteps n k (lifeStep n d))
    rw [ih]

theorem glider_steps_rel {n : Nat} (hn : 6 ≤ n) : ∀ k, k ≤ 4 → ∀ x y, x < n → y < n →
    lifeSteps n k (gliderMatrix n) x y = relMatrix n (gliderRel k) x y := by
  intro k
  induction k with
  | zero => intro _ x y hx hy; exact gliderMatrix_rel hn hx hy
  | succ k ih =>
    intro hk x y hx hy
    rw [lifeSteps_succ, lifeStep_congr (ih (by omega)) x y hx hy,
      lifeStep_relMatrix hn (gliderRel_inWindow k (by omega)) hx hy,
      planeStep_glider (by omega)]
    rfl

theorem glider_translates_large {n : Nat} (hn : 6 ≤ n) {x y : Nat} (hx : x < n) (hy : y < n) :
    lifeSteps n 4 (gliderMatrix n) x y
      = gliderMatrix n (((x : Int) - 1) % (n : Int)).toNat (((y : Int) - 1) % (n : Int)).toNat := by
  have hx1 := (wrap_cases x hx (-1) (by decide) (by decide)).2
  have hy1 := (wrap_cases y hy (-1) (by decide) (by decide)).2
  rw [Int.sub_eq_add_neg, Int.sub_eq_add_neg, glider_steps_rel hn 4 (le_refl _) x y hx hy,
    gliderMatrix_rel hn hx1 hy1]
  unfold relMatrix
  rw [decide_eq_decide, ← gliderRel_shift]
  exact (mem_transfer (gliderRel_inWindow 0 (by decide))
    (fun r hr1 hr2 => planePos_wrap hn x hx (-1) (by decide) (by decide) r hr1 hr2)
    (fun r hr1 hr2 => planePos_wrap hn y hy (-1) (by decide) (by decide) r hr1 hr2)).symm

theorem glider_translates {n : Nat} (hn : 5 ≤ n) {x y : Nat} (hx : x < n) (hy : y < n) :
    lifeSteps n 4 (gliderMatrix n) x y
      = gliderMatrix n (((x : Int) - 1) % (n : Int)).toNat (((y : Int) - 1) % (n : Int)).toNat := by
  by_cases h5 : n = 5
  · subst h5
    rw [glider_four_steps x y hx hy]
    exact gliderPhase_four x hx y hy
  · exact glider_translates_large (by omega) hx hy

/-! ## The claims -/

/-- C1: for every n-by-n grid g held in memory (n >= 1, and 2n fits the machine
integer), nextGen(g) returns a grid g' of which every cell (x, y), 0 <= x, y < n,
equals Next(x, y) evaluated on the input grid g in the heap before the call. -/
theorem C1_nextGen_cells_are_Next (h : Heap) (g : Grid) (n : Nat)
    (hmax : 2 * (n : Int) ≤ maxInt) (hsq : g.IsSquare h n) :
    ∃ g1 h1, nextGen h g = .ok (g1, h1) ∧
      ∀ x y : Nat, x < n → y < n →
        ∃ b, g.Next h x y = .ok b ∧ g1.cell h1 x y = some b := by
  refine ⟨_, _, nextGen_eq hsq hmax, ?_⟩
  intro x y hx hy
  refine ⟨_, Next_square hsq hmax hx hy, ?_⟩
  obtain ⟨s, hs, hb⟩ := (fresh_isSquare h n (lifeStep n (g.cellOr h))).cell_eq hx hy
  rw [fresh_cellOr h n _ hx hy] at hb
  simp only [Grid.cell, hs, hb]

theorem C1_witness :
    (2 * ((3 : Nat) : Int) ≤ maxInt ∧ blinkerGrid.IsSquare blinkerHeap 3) ∧
    ∃ g1 h1, nextGen blinkerHeap blinkerGrid = .ok (g1, h1) ∧
      ∀ x y : Nat, x < 3 → y < 3 →
        ∃ b, blinkerGrid.Next blinkerHeap x y = .ok b ∧ g1.cell h1 x y = some b :=
  ⟨⟨by decide, by decide⟩,
    C1_nextGen_cells_are_Next blinkerHeap blinkerGrid 3 (by decide) (by decide)⟩

/-- C2: for every n-by-n grid (n >= 1, 2n within the machine integer) and every cell
0 <= x, y < n, with c the number of offsets (i, j) of {-1,0,1} x {-1,0,1} other than
(0, 0) whose cell ((x+i) mod n, (y+j) mod n) is alive, Next(x, y) returns a value, and
that value is true if and only if c = 3, or c = 2 and the cell (x, y) is alive. -/
theorem C2_Next_rule (h : Heap) (g : Grid) (n x y : Nat)
    (hmax : 2 * (n : Int) ≤ maxInt) (hsq : g.IsSquare h n) (hx : x < n) (hy : y < n) :
    ∃ b, g.Next h x y = .ok b ∧
      (b = true ↔
        liveNeighbours n (fun a b => decide (g.cell h a b = some true)) x y = 3 ∨
        (liveNeighbours n (fun a b => decide (g.cell h a b = some true)) x y = 2 ∧
          g.cell h x y = some true)) := by
  have hd : (fun a b => decide (g.cell h a b = some true)) = g.cellOr h := by
    funext a b
    unfold Grid.cellOr
    cases g.cell h a b with
    | none => rfl
    | some v => cases v <;> rfl
  have hc : g.cell h x y = some true ↔ g.cellOr h x y = true := by
    unfold Grid.cellOr
    cases g.cell h x y with
    | none => simp
    | some v => cases v <;> simp
  refine ⟨_, Next_square hsq hmax hx hy, ?_⟩
  rw [hd, hc]
  simp [lifeStep, lifeRule]

theorem C2_witness :
    (2 * ((3 : Nat) : Int) ≤ maxInt ∧ blinkerGrid.IsSquare blinkerHeap 3) ∧
    ∃ b, blinkerGrid.Next blinkerHeap ((0 : Nat) : Int) ((1 : Nat) : Int) = .ok b ∧
      (b = true ↔
        liveNeighbours 3 (fun a b => decide (blinkerGrid.cell blinkerHeap a b = some true)) 0 1
          = 3 ∨
        (liveNeighbours 3 (fun a b => decide (blinkerGrid.cell blinkerHeap a b = some true)) 0 1
          = 2 ∧ blinkerGrid.cell blinkerHeap 0 1 = some true)) :=
  ⟨⟨by decide, by decide⟩,
    C2_Next_rule blinkerHeap blinkerGrid 3 0 1 (by decide) (by decide) (by decide) (by decide)⟩

/-- C3, refuted as stated: in the 3-by-3 grid `blinkerGrid` the lookup at x = -2 returns a
cell, and the lookup one width further left, at x - W = -5, panics. -/
theorem C3_counterexample :
    blinkerGrid.width = 3 ∧
    blinkerGrid.Alive blinkerHeap (-2) 0 = .ok true ∧
    blinkerGrid.Alive blinkerHeap (-2 - 3) 0 = .error .indexOutOfRange ∧
    blinkerGrid.Alive blinkerHeap (-2) 0 ≠ blinkerGrid.Alive blinkerHeap (-2 - 3) 0 := by
  decide

/-- C3, amended: for a grid of positive width W and height H and all integers x >= -W and
y >= -H with x + 2W and y + 2H within the machine integer, the lookups Alive(x, y),
Alive(x+W, y) and Alive(x, y+H) have the same outcome, and so has Alive(x-W, y) when
x >= 0. -/
theorem C3_Alive_periodic (h : Heap) (g : Grid) (x y : Int)
    (hW : 0 < g.width) (hH : 0 < g.height)
    (hx : -g.width ≤ x) (hx2 : x + 2 * g.width ≤ maxInt)
    (hy : -g.height ≤ y) (hy2 : y + 2 * g.height ≤ maxInt) :
    g.Alive h x y = g.Alive h (x + g.width) y ∧
    g.Alive h x y = g.Alive h x (y + g.height) ∧
    (0 ≤ x → g.Alive h x y = g.Alive h (x - g.width) y) := by
  refine ⟨Alive_rem_congr h g (goRem_shift hW hx hx2) rfl,
    Alive_rem_congr h g rfl (goRem_shift hH hy hy2), ?_⟩
  intro h0
  have hm : x + 2 * g.width ≤ 9223372036854775807 := hx2
  have := goRem_shift (x := x - g.width) hW (by omega) (by unfold maxInt; omega)
  rw [show x - g.width + g.width + g.width = x + g.width by omega] at this
  exact (Alive_rem_congr h g this rfl).symm

theorem C3_witness :
    ((0 : Int) < blinkerGrid.width ∧ (0 : Int) < blinkerGrid.height ∧
      -blinkerGrid.width ≤ (1 : Int) ∧ (1 : Int) + 2 * blinkerGrid.width ≤ maxInt ∧
      -blinkerGrid.height ≤ (-2 : Int) ∧ (-2 : Int) + 2 * blinkerGrid.height ≤ maxInt ∧
      (0 : Int) ≤ 1) ∧
    blinkerGrid.Alive blinkerHeap 1 (-2) = blinkerGrid.Alive blinkerHeap (1 + blinkerGrid.width) (-2) ∧
    blinkerGrid.Alive blinkerHeap 1 (-2) = blinkerGrid.Alive blinkerHeap 1 (-2 + blinkerGrid.height) ∧
    blinkerGrid.Alive blinkerHeap 1 (-2) = blinkerGrid.Alive blinkerHeap (1 - blinkerGrid.width) (-2) ∧
    blinkerGrid.Alive blinkerHeap 1 (-2) = .ok true :=
  ⟨by decide,
    (C3_Alive_periodic blinkerHeap blinkerGrid 1 (-2) (by decide) (by decide)
      (by decide) (by decide) (by decide) (by decide)).1,
    (C3_Alive_periodic blinkerHeap blinkerGrid 1 (-2) (by decide) (by decide)
      (by decide) (by decide) (by decide) (by decide)).2.1,
    (C3_Alive_periodic blinkerHeap blinkerGrid 1 (-2) (by decide) (by decide)
      (by decide) (by decide) (by decide) (by decide)).2.2 (by decide),
    by decide⟩

/-- C4, refuted as stated: in the 3-by-3 grid `blinkerGrid` the lookup panics at y = -7,
more than one height below zero, and at x = MaxInt64 - 1, where `x + width` overflows;
at x = MaxInt64 it returns the cell of row 0, and the normalized row is 1. -/
theorem C4_counterexample :
    blinkerGrid.Alive blinkerHeap 1 (-7) = .error .indexOutOfRange ∧
    blinkerGrid.Alive blinkerHeap (maxInt - 1) 1 = .error .indexOutOfRange ∧
    blinkerGrid.Alive blinkerHeap maxInt 0 = .ok false ∧
    blinkerGrid.cell blinkerHeap ((maxInt.tmod 3 + 3).tmod 3).toNat
      (((0 : Int).tmod 3 + 3).tmod 3).toNat = some true := by
  decide

/-- C4, amended: for every n-by-n grid (n >= 1) and all integers x >= -n and y >= -n with
x + n and y + n within the machine integer, Alive(x, y) does not fail and returns the
cell stored at the normalized coordinate
(((x mod n) + n) mod n, ((y mod n) + n) mod n), `mod` being the `%` of the source. -/
theorem C4_Alive_normalized (h : Heap) (g : Grid) (n : Nat) (x y : Int)
    (hn : 1 ≤ n) (hsq : g.IsSquare h n)
    (hx : -(n : Int) ≤ x) (hx2 : x + n ≤ maxInt)
    (hy : -(n : Int) ≤ y) (hy2 : y + n ≤ maxInt) :
    ∃ v, g.Alive h x y = .ok v ∧
      g.cell h ((x.tmod n + n).tmod n).toNat ((y.tmod n + n).tmod n).toNat = some v := by
  have hn0 : (n : Int) ≠ 0 := by omega
  have hnpos : (0 : Int) < n := by omega
  have hxm : 0 ≤ x % (n : Int) := Int.emod_nonneg _ hn0
  have hym : 0 ≤ y % (n : Int) := Int.emod_nonneg _ hn0
  have hxl : x % (n : Int) < n := Int.emod_lt_of_pos _ hnpos
  have hyl : y % (n : Int) < n := Int.emod_lt_of_pos _ hnpos
  refine ⟨_, Alive_square hsq hn hx hx2 hy hy2, ?_⟩
  rw [tmod_normalize hn, tmod_normalize hn]
  obtain ⟨s, hs, hb⟩ := hsq.cell_eq (a := (x % n).toNat) (b := (y % n).toNat)
    (by omega) (by omega)
  simp only [Grid.cell, hs, hb]

theorem C4_witness :
    ((1 : Nat) ≤ 3 ∧ blinkerGrid.IsSquare blinkerHeap 3 ∧
      -((3 : Nat) : Int) ≤ (-2 : Int) ∧ (-2 : Int) + ((3 : Nat) : Int) ≤ maxInt ∧
      -((3 : Nat) : Int) ≤ (7 : Int) ∧ (7 : Int) + ((3 : Nat) : Int) ≤ maxInt) ∧
    ∃ v, blinkerGrid.Alive blinkerHeap (-2) 7 = .ok v ∧
      blinkerGrid.cell blinkerHeap (((-2 : Int).tmod ((3 : Nat) : Int) + ((3 : Nat) : Int)).tmod
        ((3 : Nat) : Int)).toNat
        (((7 : Int).tmod ((3 : Nat) : Int) + ((3 : Nat) : Int)).tmod ((3 : Nat) : Int)).toNat
        = some v :=
  ⟨by decide, C4_Alive_normalized blinkerHeap blinkerGrid 3 (-2) 7 (by decide) (by decide)
    (by decide) (by decide) (by decide) (by decide)⟩

/-- C5, evaluated at a failing input: the grid built by EmptyGrid(1, 2) (width 1,
height 2) is 2 rows of 1 column, and nextGen on it panics with an index out of range;
so it does on the grid built by EmptyGrid(2, 1). -/
theorem C5_nextGen_panics_on_nonsquare :
    EmptyGrid [] 1 2 = .ok
      ({ squares := [some 0, some 1], width := 1, height := 2 }, [[false], [false]]) ∧
    nextGen [[false], [false]] { squares := [some 0, some 1], width := 1, height := 2 }
      = .error .indexOutOfRange ∧
    EmptyGrid [] 2 1 = .ok ({ squares := [some 0], width := 2, height := 1 }, [[false, false]]) ∧
    nextGen [[false, false]] { squares := [some 0], width := 2, height := 1 }
      = .error .indexOutOfRange := by
  decide

/-- C6, refuted as stated: EmptyGrid returns a grid for the dimensions (0, 0), (0, 3)
and (-1, 0). -/
theorem C6_counterexample :
    EmptyGrid [] 0 0 = .ok ({ squares := [], width := 0, height := 0 }, []) ∧
    EmptyGrid [] 0 3 = .ok
      ({ squares := [some 0, some 1, some 2], width := 0, height := 3 }, [[], [], []]) ∧
    EmptyGrid [] (-1) 0 = .ok ({ squares := [], width := -1, height := 0 }, []) := by
  decide

/-- C6, amended: EmptyGrid(width, height) fails, with the run-time panic of `make`,
whenever height < 0, or height > 0 and width < 0. It does not fail when height = 0,
whatever the width, nor when width = 0 and the height passes the length check of `make`:
it then returns a grid without any cell, of no row or of `height` rows of no column. -/
theorem C6_EmptyGrid_outcome (h : Heap) (w ht : Int) :
    (ht < 0 ∨ (0 < ht ∧ w < 0) → EmptyGrid h w ht = .error .makeLenOutOfRange) ∧
    (ht = 0 → EmptyGrid h w ht = .ok ({ squares := [], width := w, height := 0 }, h)) ∧
    (w = 0 → makeGrants 24 ht → EmptyGrid h w ht = .ok
      ({ squares := freshRows h.length ht.toNat, width := 0, height := ht },
        h ++ List.replicate ht.toNat [])) := by
  refine ⟨?_, ?_, ?_⟩
  · intro hf
    rw [EmptyGrid_outcome, if_pos hf]
  · intro h0
    subst h0
    exact EmptyGrid_zero_height h w
  · intro hw hg
    subst hw
    rw [EmptyGrid_eq h 0 ht (le_refl _) hg.1]
    rfl

theorem C6_witness :
    (((-2 : Int) < 0 ∨ ((0 : Int) < -2 ∧ (5 : Int) < 0)) ∧
      ((3 : Int) < 0 ∨ ((0 : Int) < 3 ∧ (-1 : Int) < 0)) ∧ makeGrants 24 3) ∧
    EmptyGrid [] 5 (-2) = .error .makeLenOutOfRange ∧
    EmptyGrid [] (-1) 3 = .error .makeLenOutOfRange ∧
    EmptyGrid [] (-1) 0 = .ok ({ squares := [], width := -1, height := 0 }, []) ∧
    EmptyGrid [] 0 3 = .ok
      ({ squares := freshRows ([] : Heap).length (3 : Int).toNat, width := 0, height := 3 },
        [] ++ List.replicate (3 : Int).toNat []) :=
  ⟨by decide,
    (C6_EmptyGrid_outcome [] 5 (-2)).1 (by decide),
    (C6_EmptyGrid_outcome [] (-1) 3).1 (by decide),
    (C6_EmptyGrid_outcome [] (-1) 0).2.1 rfl,
    (C6_EmptyGrid_outcome [] 0 3).2.2 rfl (by decide)⟩

/-- C7: GliderGrid(5, 5), from any heap, returns the grid whose live cells are exactly
(2,1), (3,2), (1,3), (2,3), (3,3); four applications of nextGen to it return the grid
whose live cells are exactly (3,2), (4,3), (2,4), (3,4), (4,4), and whose every cell (x, y)
equals the initial cell ((x-1) mod 5, (y-1) mod 5). -/
theorem C7_glider_translates (h0 : Heap) :
    ∃ g0 h1 g4 h4, GliderGrid h0 5 5 = .ok (g0, h1) ∧ generations 4 h1 g0 = .ok (g4, h4) ∧
      (∀ x y : Nat, x < 5 → y < 5 →
        g0.cell h1 x y = some (decide ((x, y) ∈ [(2, 1), (3, 2), (1, 3), (2, 3), (3, 3)]))) ∧
      (∀ x y : Nat, x < 5 → y < 5 →
        g4.cell h4 x y = some (decide ((x, y) ∈ [(3, 2), (4, 3), (2, 4), (3, 4), (4, 4)]))) ∧
      (∀ x y : Nat, x < 5 → y < 5 →
        g4.cell h4 x y
          = g0.cell h1 (((x : Int) - 1) % 5).toNat (((y : Int) - 1) % 5).toNat) := by
  have hg := GliderGrid_eq h0 5 (by decide) (by decide)
  have hsq0 := fresh_isSquare h0 5 (gliderMatrix 5)
  obtain ⟨g4, more, he, hsq4, hcell⟩ := generations_eq (n := 5) (by decide) 4 _ _ hsq0
  have h4 : ∀ x y : Nat, x < 5 → y < 5 →
      g4.cell (h0 ++ paint 5 (gliderMatrix 5) ++ more) x y
        = some (matrixOf (gliderPhase 4) x y) := by
    intro x y hx hy
    rw [cell_of_cellOr hsq4 hx hy, hcell x y hx hy,
      lifeSteps_congr 4 (fun a b ha hb => fresh_cellOr h0 5 _ ha hb) x y hx hy,
      glider_four_steps x y hx hy]
  refine ⟨_, _, g4, _, hg, he, ?_, ?_, ?_⟩
  · intro x y hx hy
    rw [cell_of_cellOr hsq0 hx hy, fresh_cellOr h0 5 _ hx hy, gliderMatrix_five x hx y hy]
  · intro x y hx hy
    rw [h4 x y hx hy, gliderPhase_four_cells x hx y hy]
  · intro x y hx hy
    have hx1 : (((x : Int) - 1) % 5).toNat < 5 := by omega
    have hy1 : (((y : Int) - 1) % 5).toNat < 5 := by omega
    rw [h4 x y hx hy, cell_of_cellOr hsq0 hx1 hy1, fresh_cellOr h0 5 _ hx1 hy1,
      gliderPhase_four x hx y hy]

/-- C8: for every n >= 1 that passes the length check of `make` for the `[][]bool` of a
grid (24n bytes within the allocation limit; from 0 on) and every k >= 0, EmptyGrid(n, n)
returns a grid and k applications of nextGen to it return a grid of which every cell
(x, y), 0 <= x, y < n, is dead. -/
theorem C8_empty_stays_empty (h0 : Heap) (n k : Nat) (halloc : makeGrants 24 n) :
    ∃ g0 h1 g1 h2, EmptyGrid h0 n n = .ok (g0, h1) ∧ generations k h1 g0 = .ok (g1, h2) ∧
      ∀ x y : Nat, x < n → y < n → g1.cell h2 x y = some false := by
  have hmax : 2 * (n : Int) ≤ maxInt := by
    have := halloc.2
    unfold maxAlloc at this
    unfold maxInt
    omega
  have hsq0 := fresh_isSquare h0 n (fun _ _ => false)
  obtain ⟨g1, more, he, hsq1, hcell⟩ := generations_eq hmax k _ _ hsq0
  refine ⟨_, _, g1, _, EmptyGrid_square h0 n, he, ?_⟩
  intro x y hx hy
  rw [cell_of_cellOr hsq1 hx hy, hcell x y hx hy,
    lifeSteps_congr k (fun a b ha hb => fresh_cellOr h0 n _ ha hb) x y hx hy,
    lifeSteps_dead n k x y hx hy]

theorem C8_witness :
    makeGrants 24 ((3 : Nat) : Int) ∧
    ∃ g0 h1 g1 h2, EmptyGrid [] ((3 : Nat) : Int) ((3 : Nat) : Int) = .ok (g0, h1) ∧
      generations 2 h1 g0 = .ok (g1, h2) ∧
      ∀ x y : Nat, x < 3 → y < 3 → g1.cell h2 x y = some false :=
  ⟨by decide, C8_empty_stays_empty [] 3 2 (by decide)⟩

/-- C9: for every n-by-n grid prev (n >= 1, 2n within the machine integer) and every
permutation of the list of the n*n cell coordinates, running the units of work
(threadAssignment) on a fresh EmptyGrid(n, n) in the order of the permutation gives the
same result, grid and heap, as nextGen(prev), which runs them in x-major order; and a
second call of nextGen on the same grid returns a grid with the same cells as the first. -/
theorem C9_order_independent (h : Heap) (g : Grid) (n : Nat) (coords : List (Nat × Nat))
    (hmax : 2 * (n : Int) ≤ maxInt) (hsq : g.IsSquare h n)
    (hperm : coords.Perm (xMajor n n)) :
    nextGenInOrder coords h g = nextGen h g ∧
    ∃ g1 h1 g2 h2, nextGen h g = .ok (g1, h1) ∧ nextGen h1 g = .ok (g2, h2) ∧
      ∀ x y : Nat, x < n → y < n → g2.cell h2 x y = g1.cell h1 x y := by
  constructor
  · rw [nextGen_eq hsq hmax,
      nextGenInOrder_eq hsq hmax (fun c hc => mem_xMajor.mp (hperm.mem_iff.mp hc))]
    refine congrArg (fun m => (Except.ok
      ({ squares := freshRows h.length n, width := n, height := n }, h ++ m) :
        Result (Grid × Heap))) ?_
    apply paint_congr
    intro a b ha hb
    rw [if_pos (hperm.mem_iff.mpr (mem_xMajor.mpr ⟨ha, hb⟩))]
  · have hsq1 := hsq.append (paint n (lifeStep n (g.cellOr h)))
    refine ⟨_, _, _, _, nextGen_eq hsq hmax, nextGen_eq hsq1 hmax, ?_⟩
    intro x y hx hy
    rw [cell_of_cellOr (fresh_isSquare _ n _) hx hy, cell_of_cellOr (fresh_isSquare _ n _) hx hy,
      fresh_cellOr _ n _ hx hy, fresh_cellOr _ n _ hx hy]
    congr 1
    exact lifeStep_congr (fun a b _ _ => cellOr_append hsq _ a b) x y hx hy

theorem C9_witness :
    (2 * ((3 : Nat) : Int) ≤ maxInt ∧ blinkerGrid.IsSquare blinkerHeap 3 ∧
      (xMajor 3 3).reverse.Perm (xMajor 3 3)) ∧
    (nextGenInOrder (xMajor 3 3).reverse blinkerHeap blinkerGrid
        = nextGen blinkerHeap blinkerGrid ∧
      ∃ g1 h1 g2 h2, nextGen blinkerHeap blinkerGrid = .ok (g1, h1) ∧
        nextGen h1 blinkerGrid = .ok (g2, h2) ∧
        ∀ x y : Nat, x < 3 → y < 3 → g2.cell h2 x y = g1.cell h1 x y) :=
  ⟨⟨by decide, by decide, List.reverse_perm _⟩,
    C9_order_independent blinkerHeap blinkerGrid 3 (xMajor 3 3).reverse (by decide) (by decide)
      (List.reverse_perm _)⟩

/-- C10: when nextGen(g) returns, in the heap after the call every row that was allocated
before the call holds what it held (the old heap is a prefix of the new one), so every
cell of the input grid g, whose rows were allocated before the call, has the value it had;
the width and height of g are fields no statement assigns. -/
theorem C10_nextGen_leaves_input (h h1 : Heap) (g g1 : Grid)
    (hret : nextGen h g = .ok (g1, h1))
    (halloc : g.Allocated h) :
    h <+: h1 ∧ ∀ x y : Nat, g.cell h1 x y = g.cell h x y := by
  obtain ⟨m, hm⟩ := nextGen_extends hret
  subst hm
  refine ⟨List.prefix_append h m, ?_⟩
  intro x y
  apply cell_congr
  intro s hs
  cases s with
  | none => rfl
  | some a => exact row_append_of_lt h m (halloc _ hs a rfl)

theorem C10_witness :
    (nextGen blinkerHeap blinkerGrid = .ok
        ({ squares := [some 3, some 4, some 5], width := 3, height := 3 },
          [[false, false, false], [true, true, true], [false, false, false],
            [true, true, true], [true, true, true], [true, true, true]]) ∧
      blinkerGrid.Allocated blinkerHeap) ∧
    (blinkerHeap <+: [[false, false, false], [true, true, true], [false, false, false],
        [true, true, true], [true, true, true], [true, true, true]] ∧
      ∀ x y : Nat,
        blinkerGrid.cell [[false, false, false], [true, true, true], [false, false, false],
          [true, true, true], [true, true, true], [true, true, true]] x y
          = blinkerGrid.cell blinkerHeap x y) :=
  ⟨⟨by decide, by decide⟩,
    C10_nextGen_leaves_input blinkerHeap
      [[false, false, false], [true, true, true], [false, false, false],
        [true, true, true], [true, true, true], [true, true, true]] blinkerGrid
      { squares := [some 3, some 4, some 5], width := 3, height := 3 } (by decide) (by decide)⟩

/-- C11: on an n-by-n new grid with distinct rows that shares no row with the n-by-n grid
prev, one unit of work threadAssignment(prev, x, y) returns, and after it cell (x, y) of
the new grid is the value of prev.Next(x, y) before it, every other cell of the new grid
and every cell of prev are what they were, and so is every row that is not a row of the
new grid; the widths and heights are fields no statement assigns. -/
theorem C11_threadAssignment_writes_one_cell (h : Heap) (g prev : Grid) (n x y : Nat)
    (wg : Int) (hmax : 2 * (n : Int) ≤ maxInt) (hprev : prev.IsSquare h n)
    (hg : g.IsSquare h n) (hnodup : g.squares.Nodup)
    (hsep : ∀ s ∈ prev.squares, s ∉ g.squares) (hx : x < n) (hy : y < n) (hwg : 1 ≤ wg) :
    ∃ h1 v, g.threadAssignment h prev (x : Int) (y : Int) wg = .ok (h1, wg - 1) ∧
      prev.Next h (x : Int) (y : Int) = .ok v ∧
      g.cell h1 x y = some v ∧
      (∀ a b : Nat, (a, b) ≠ (x, y) → g.cell h1 a b = g.cell h a b) ∧
      (∀ a b : Nat, prev.cell h1 a b = prev.cell h a b) ∧
      h1.length = h.length ∧
      (∀ s, s ∉ g.squares → h1.row s = h.row s) := by
  obtain ⟨a, ha, halt, hlen⟩ := hg.row_address hx
  have hmem : some a ∈ g.squares := List.getElem?_mem ha
  have hother : ∀ s, s ∉ g.squares →
      Heap.row (h.set a ((h.row (some a)).set y (lifeStep n (prev.cellOr h) x y))) s
        = h.row s := by
    intro s hs
    rw [row_set, if_neg]
    rintro ⟨e, -⟩
    exact hs (e ▸ hmem)
  refine ⟨_, _, threadAssignment_square hprev hmax hx hy ha hlen hwg,
    Next_square hprev hmax hx hy, ?_, ?_, ?_, by simp, hother⟩
  · simp only [Grid.cell, ha, row_set, true_and, halt, if_true]
    rw [List.getElem?_set, if_pos rfl, if_pos (by omega)]
  · intro a1 b1 hne
    unfold Grid.cell
    cases hs : g.squares[a1]? with
    | none => rfl
    | some s =>
      simp only [row_set]
      by_cases e : s = some a ∧ a < h.length
      · rw [if_pos e]
        have hxl : x < g.squares.length := by rw [hg.2.2.1]; exact hx
        have ex : x = a1 := List.getElem?_inj hxl hnodup (by rw [ha, hs, e.1])
        have hb : ¬ y = b1 := by
          intro eb
          apply hne
          rw [← ex, ← eb]
        rw [List.getElem?_set, if_neg hb, e.1]
      · rw [if_neg e]
  · intro a1 b1
    exact cell_congr (fun s hs => hother s (hsep s hs)) a1 b1

theorem C11_witness :
    (2 * ((3 : Nat) : Int) ≤ maxInt ∧ blinkerGrid.IsSquare blinkerHeapFresh 3 ∧
      freshGrid.IsSquare blinkerHeapFresh 3 ∧ freshGrid.squares.Nodup ∧
      (∀ s ∈ blinkerGrid.squares, s ∉ freshGrid.squares) ∧ 0 < 3 ∧ 1 < 3 ∧ (1 : Int) ≤ 1) ∧
    ∃ h1 v, freshGrid.threadAssignment blinkerHeapFresh blinkerGrid ((0 : Nat) : Int)
        ((1 : Nat) : Int) 1 = .ok (h1, 1 - 1) ∧
      blinkerGrid.Next blinkerHeapFresh ((0 : Nat) : Int) ((1 : Nat) : Int) = .ok v ∧
      freshGrid.cell h1 0 1 = some v ∧
      (∀ a b : Nat, (a, b) ≠ (0, 1) → freshGrid.cell h1 a b = freshGrid.cell blinkerHeapFresh a b) ∧
      (∀ a b : Nat, blinkerGrid.cell h1 a b = blinkerGrid.cell blinkerHeapFresh a b) ∧
      h1.length = blinkerHeapFresh.length ∧
      (∀ s, s ∉ freshGrid.squares → h1.row s = blinkerHeapFresh.row s) :=
  ⟨by decide, C11_threadAssignment_writes_one_cell blinkerHeapFresh freshGrid blinkerGrid 3 0 1 1
    (by decide) (by decide) (by decide) (by decide) (by decide) (by decide) (by decide)
    (by decide)⟩

/-- C12, evaluated on the 3-by-3 grid `blinkerGrid`: the call of the unit of work for
the cell (0, 1), entered with the counter of the wait group at 0, returns with the cell
written and the counter back at 0, so the unit has run to its end, `wg.Done()` included,
before nextGen dispatches the next one; and nextGen is the run of the nine units one after
the other in x-major order. No unit runs concurrently with another. -/
theorem C12_units_run_one_after_the_other :
    unitOfWork freshGrid blinkerGrid (blinkerHeapFresh, 0) (0, 1) = .ok
      (blinkerHeap ++ [[false, true, false], [false, false, false], [false, false, false]], 0) ∧
    nextGen blinkerHeap blinkerGrid = nextGenInOrder (xMajor 3 3) blinkerHeap blinkerGrid := by
  decide

/-- C13: for every width >= 1 and height >= 1 (and already from 0 on) that pass the length
check of `make`, the width for a `[]bool` and the height for the `[][]bool`,
EmptyGrid(width, height) returns a grid whose width and height fields are the arguments,
whose matrix has exactly `height` rows, each of exactly `width` columns, and whose every
entry is false. -/
theorem C13_EmptyGrid_all_dead (h : Heap) (w ht : Int) (hw : makeGrants 1 w)
    (hh : makeGrants 24 ht) :
    ∃ g h1, EmptyGrid h w ht = .ok (g, h1) ∧ g.width = w ∧ g.height = ht ∧
      (g.squares.length : Int) = ht ∧
      (∀ s ∈ g.squares, ((h1.row s).length : Int) = w) ∧
      (∀ i j : Nat, (i : Int) < ht → (j : Int) < w → g.cell h1 i j = some false) := by
  have hw0 : 0 ≤ w := hw.1
  have hh0 : 0 ≤ ht := hh.1
  refine ⟨_, _, EmptyGrid_eq h w ht hw0 hh0, rfl, rfl, ?_, ?_, ?_⟩
  · simp only [freshRows, List.length_map, List.length_range]
    omega
  · intro s hs
    simp only [freshRows, List.mem_map, List.mem_range] at hs
    obtain ⟨i, hi, rfl⟩ := hs
    rw [row_replicate h _ _ hi, List.length_replicate]
    omega
  · intro i j hi hj
    have hi1 : i < ht.toNat := by omega
    have hj1 : j < w.toNat := by omega
    simp only [Grid.cell, freshRows_getElem? h.length hi1, row_replicate h _ _ hi1,
      List.getElem?_replicate, hj1, if_true]

theorem C13_witness :
    (makeGrants 1 3 ∧ makeGrants 24 2) ∧
    ∃ g h1, EmptyGrid [] 3 2 = .ok (g, h1) ∧ g.width = 3 ∧ g.height = 2 ∧
      (g.squares.length : Int) = 2 ∧
      (∀ s ∈ g.squares, ((h1.row s).length : Int) = 3) ∧
      (∀ i j : Nat, (i : Int) < 2 → (j : Int) < 3 → g.cell h1 i j = some false) :=
  ⟨by decide, C13_EmptyGrid_all_dead [] 3 2 (by decide) (by decide)⟩

/-- C14: for every n >= 5 that passes the length check of `make` for the `[][]bool` of a
grid (24n bytes within the allocation limit), GliderGrid(n, n) returns a grid in which,
with c = n/2, cell (x, y), 0 <= x, y < n, is alive if and only if (x, y) is one of
(c, c-1), (c+1, c), (c-1, c+1), (c, c+1), (c+1, c+1). -/
theorem C14_GliderGrid_cells (h : Heap) (n : Nat) (hn : 5 ≤ n) (halloc : makeGrants 24 n) :
    ∃ g h1, GliderGrid h n n = .ok (g, h1) ∧
      ∀ x y : Nat, x < n → y < n →
        g.cell h1 x y = some (decide ((x, y) ∈
          [(n / 2, n / 2 - 1), (n / 2 + 1, n / 2), (n / 2 - 1, n / 2 + 1),
            (n / 2, n / 2 + 1), (n / 2 + 1, n / 2 + 1)])) := by
  have hmax : (n : Int) ≤ maxInt := by
    have := halloc.2
    unfold maxAlloc at this
    unfold maxInt
    omega
  refine ⟨_, _, GliderGrid_eq h n hn hmax, ?_⟩
  intro x y hx hy
  rw [cell_of_cellOr (fresh_isSquare h n _) hx hy, fresh_cellOr h n _ hx hy]
  rfl

theorem C14_witness :
    ((5 : Nat) ≤ 6 ∧ makeGrants 24 ((6 : Nat) : Int)) ∧
    ∃ g h1, GliderGrid [] ((6 : Nat) : Int) ((6 : Nat) : Int) = .ok (g, h1) ∧
      ∀ x y : Nat, x < 6 → y < 6 →
        g.cell h1 x y = some (decide ((x, y) ∈
          [(6 / 2, 6 / 2 - 1), (6 / 2 + 1, 6 / 2), (6 / 2 - 1, 6 / 2 + 1),
            (6 / 2, 6 / 2 + 1), (6 / 2 + 1, 6 / 2 + 1)])) :=
  ⟨by decide, C14_GliderGrid_cells [] 6 (by decide) (by decide)⟩

/-- C15, refuted as stated: in the 3-by-3 grid `blinkerGrid` the lookup at x = width + 1
returns the live cell (1, 0), and the lookup at x = 0 returns the dead cell (0, 0). -/
theorem C15_counterexample :
    blinkerGrid.Alive blinkerHeap (blinkerGrid.width + 1) 0 = .ok true ∧
    blinkerGrid.Alive blinkerHeap 0 0 = .ok false := by
  decide

/-- C15, amended: the lookup is wrapped so that width = 0, width + 1 = 1 and -1 = width - 1:
for every grid of positive width W with 2W + 1 within the machine integer and every y,
Alive(W, y) has the outcome of Alive(0, y), Alive(W+1, y) that of Alive(1, y), and
Alive(-1, y) that of Alive(W-1, y). -/
theorem C15_Alive_wraps_by_width (h : Heap) (g : Grid) (y : Int)
    (hW : 0 < g.width) (hmax : 2 * g.width + 1 ≤ maxInt) :
    g.Alive h g.width y = g.Alive h 0 y ∧
    g.Alive h (g.width + 1) y = g.Alive h 1 y ∧
    g.Alive h (-1) y = g.Alive h (g.width - 1) y := by
  have hm : 2 * g.width + 1 ≤ 9223372036854775807 := hmax
  have e0 := goRem_shift (x := 0) hW (by omega) (by unfold maxInt; omega)
  have e1 := goRem_shift (x := 1) hW (by omega) (by unfold maxInt; omega)
  have e2 := goRem_shift (x := -1) hW (by omega) (by unfold maxInt; omega)
  rw [show (0 : Int) + g.width + g.width = g.width + g.width by omega] at e0
  rw [show (1 : Int) + g.width + g.width = g.width + 1 + g.width by omega] at e1
  rw [show (-1 : Int) + g.width + g.width = g.width - 1 + g.width by omega] at e2
  exact ⟨(Alive_rem_congr h g e0 rfl).symm, (Alive_rem_congr h g e1 rfl).symm,
    Alive_rem_congr h g e2 rfl⟩

theorem C15_witness :
    ((0 : Int) < blinkerGrid.width ∧ 2 * blinkerGrid.width + 1 ≤ maxInt) ∧
    (blinkerGrid.Alive blinkerHeap blinkerGrid.width 2 = blinkerGrid.Alive blinkerHeap 0 2 ∧
    blinkerGrid.Alive blinkerHeap (blinkerGrid.width + 1) 2 = blinkerGrid.Alive blinkerHeap 1 2 ∧
    blinkerGrid.Alive blinkerHeap (-1) 2 = blinkerGrid.Alive blinkerHeap (blinkerGrid.width - 1) 2) :=
  ⟨by decide, C15_Alive_wraps_by_width blinkerHeap blinkerGrid 2 (by decide) (by decide)⟩

/-- C18: for every n-by-n grid (n >= 1) and all integers x >= -n and y >= -n with x + n
and y + n within the machine integer, Alive(x, y) does not fail and returns the cell at
(x mod n, y mod n), the residues being the non-negative ones; and when 2n is within the
machine integer, every coordinate x0 + i that Next passes for a coordinate 0 <= x0 < n of
the grid and an offset i of -1, 0, 1 is such an integer. -/
theorem C18_Alive_in_range (h : Heap) (g : Grid) (n : Nat) (x y : Int)
    (hn : 1 ≤ n) (hsq : g.IsSquare h n)
    (hx : -(n : Int) ≤ x) (hx2 : x + n ≤ maxInt)
    (hy : -(n : Int) ≤ y) (hy2 : y + n ≤ maxInt) :
    (∃ v, g.Alive h x y = .ok v ∧
      g.cell h (x % (n : Int)).toNat (y % (n : Int)).toNat = some v ∧
      (x % (n : Int)).toNat < n ∧ (y % (n : Int)).toNat < n) ∧
    (2 * (n : Int) ≤ maxInt → ∀ x0 : Nat, x0 < n → ∀ i ∈ offsets,
      -(n : Int) ≤ wrapInt ((x0 : Int) + i) ∧ wrapInt ((x0 : Int) + i) + n ≤ maxInt) := by
  have hn0 : (n : Int) ≠ 0 := by omega
  have hnpos : (0 : Int) < n := by omega
  have hxm : 0 ≤ x % (n : Int) := Int.emod_nonneg _ hn0
  have hym : 0 ≤ y % (n : Int) := Int.emod_nonneg _ hn0
  have hxl : x % (n : Int) < n := Int.emod_lt_of_pos _ hnpos
  have hyl : y % (n : Int) < n := Int.emod_lt_of_pos _ hnpos
  refine ⟨⟨_, Alive_square hsq hn hx hx2 hy hy2,
    cell_of_cellOr hsq (by omega) (by omega), by omega, by omega⟩, ?_⟩
  intro hmax x0 hx0 i hi
  have hm : 2 * (n : Int) ≤ 9223372036854775807 := hmax
  have hi2 : -1 ≤ i ∧ i ≤ 1 := by
    simp only [offsets, List.mem_cons, List.mem_singleton, List.not_mem_nil, or_false] at hi
    omega
  rw [wrapInt_eq (by unfold minInt; omega) (by unfold maxInt; omega)]
  unfold maxInt
  omega

theorem C18_witness :
    ((1 : Nat) ≤ 3 ∧ blinkerGrid.IsSquare blinkerHeap 3 ∧
      -((3 : Nat) : Int) ≤ (-1 : Int) ∧ (-1 : Int) + ((3 : Nat) : Int) ≤ maxInt ∧
      -((3 : Nat) : Int) ≤ (3 : Int) ∧ (3 : Int) + ((3 : Nat) : Int) ≤ maxInt) ∧
    ((∃ v, blinkerGrid.Alive blinkerHeap (-1) 3 = .ok v ∧
      blinkerGrid.cell blinkerHeap ((-1 : Int) % ((3 : Nat) : Int)).toNat
        ((3 : Int) % ((3 : Nat) : Int)).toNat = some v ∧
      ((-1 : Int) % ((3 : Nat) : Int)).toNat < 3 ∧ ((3 : Int) % ((3 : Nat) : Int)).toNat < 3) ∧
    (2 * ((3 : Nat) : Int) ≤ maxInt → ∀ x0 : Nat, x0 < 3 → ∀ i ∈ offsets,
      -((3 : Nat) : Int) ≤ wrapInt ((x0 : Int) + i) ∧
        wrapInt ((x0 : Int) + i) + ((3 : Nat) : Int) ≤ maxInt)) :=
  ⟨by decide, C18_Alive_in_range blinkerHeap blinkerGrid 3 (-1) 3 (by decide) (by decide)
    (by decide) (by decide) (by decide) (by decide)⟩

/-- C19: for every n >= 1 (2n within the machine integer), all integers a, b and all
n-by-n grids g and gs such that cell (x, y) of gs is cell ((x-a) mod n, (y-b) mod n) of g,
nextGen returns on both and cell (x, y) of nextGen(gs) is cell ((x-a) mod n, (y-b) mod n)
of nextGen(g). -/
theorem C19_nextGen_commutes_with_shift (h hs : Heap) (g gs : Grid) (n : Nat) (a b : Int)
    (hn : 1 ≤ n) (hmax : 2 * (n : Int) ≤ maxInt)
    (hsq : g.IsSquare h n) (hsqs : gs.IsSquare hs n)
    (hshift : ∀ x, x < n → ∀ y, y < n →
      gs.cell hs x y
        = g.cell h (((x : Int) - a) % (n : Int)).toNat (((y : Int) - b) % (n : Int)).toNat) :
    ∃ g1 h1 gs1 hs1, nextGen h g = .ok (g1, h1) ∧ nextGen hs gs = .ok (gs1, hs1) ∧
      ∀ x, x < n → ∀ y, y < n →
        gs1.cell hs1 x y
          = g1.cell h1 (((x : Int) - a) % (n : Int)).toNat
              (((y : Int) - b) % (n : Int)).toNat := by
  have hn0 : (n : Int) ≠ 0 := by omega
  have hnpos : (0 : Int) < n := by omega
  have hb : ∀ (x : Nat) (c : Int), (((x : Int) - c) % (n : Int)).toNat < n := by
    intro x c
    have := Int.emod_nonneg ((x : Int) - c) hn0
    have := Int.emod_lt_of_pos ((x : Int) - c) hnpos
    omega
  have hd : ∀ x y, x < n → y < n →
      gs.cellOr hs x y = shiftMatrix n a b (g.cellOr h) x y := by
    intro x y hx hy
    have e := hshift x hx y hy
    rw [cell_of_cellOr hsqs hx hy, cell_of_cellOr hsq (hb x a) (hb y b)] at e
    exact Option.some.inj e
  refine ⟨_, _, _, _, nextGen_eq hsq hmax, nextGen_eq hsqs hmax, ?_⟩
  intro x hx y hy
  rw [cell_of_cellOr (fresh_isSquare hs n _) hx hy,
    cell_of_cellOr (fresh_isSquare h n _) (hb x a) (hb y b),
    fresh_cellOr hs n _ hx hy, fresh_cellOr h n _ (hb x a) (hb y b),
    lifeStep_congr hd x y hx hy, lifeStep_shift (by omega) a b _ x y]
  rfl

theorem C19_witness :
    ((1 : Nat) ≤ 3 ∧ 2 * ((3 : Nat) : Int) ≤ maxInt ∧ blinkerGrid.IsSquare blinkerHeap 3 ∧
      blinkerGridShifted.IsSquare blinkerHeap 3 ∧
      ∀ x, x < 3 → ∀ y, y < 3 →
        blinkerGridShifted.cell blinkerHeap x y
          = blinkerGrid.cell blinkerHeap (((x : Int) - 1) % ((3 : Nat) : Int)).toNat
              (((y : Int) - 0) % ((3 : Nat) : Int)).toNat) ∧
    ∃ g1 h1 gs1 hs1, nextGen blinkerHeap blinkerGrid = .ok (g1, h1) ∧
      nextGen blinkerHeap blinkerGridShifted = .ok (gs1, hs1) ∧
      ∀ x, x < 3 → ∀ y, y < 3 →
        gs1.cell hs1 x y
          = g1.cell h1 (((x : Int) - 1) % ((3 : Nat) : Int)).toNat
              (((y : Int) - 0) % ((3 : Nat) : Int)).toNat :=
  ⟨by decide, C19_nextGen_commutes_with_shift blinkerHeap blinkerHeap blinkerGrid
    blinkerGridShifted 3 1 0 (by decide) (by decide) (by decide) (by decide) (by decide)⟩

/-- C17: for every n-by-n grid g (n >= 1, 2n within the machine integer), g.String() is
the concatenation of exactly n+2 lines, each followed by a newline: the first and the last
line are n+2 characters '-', and for 0 <= y < n line y+1 is '|', then n glyphs of which the
x-th is '*' if Alive(x, y) is true and ' ' otherwise, then '|'. -/
theorem C17_String_text (h : Heap) (g : Grid) (n : Nat) (hn : 1 ≤ n)
    (hmax : 2 * (n : Int) ≤ maxInt) (hsq : g.IsSquare h n) :
    ∃ lines : List (List Char),
      g.String h = .ok (lines.map (fun l => l ++ ['\n'])).flatten ∧
      lines.length = n + 2 ∧
      lines[0]? = some (List.replicate (n + 2) '-') ∧
      lines[n + 1]? = some (List.replicate (n + 2) '-') ∧
      ∀ y : Nat, y < n → lines[y + 1]? = some ('|' :: (List.range n).map
        (fun (x : Nat) => if g.Alive h (x : Int) (y : Int) = .ok true then '*' else ' ')
          ++ ['|']) := by
  have hm : 2 * (n : Int) ≤ 9223372036854775807 := hmax
  have hglyph : ∀ x y : Nat, x < n → y < n →
      (if g.Alive h (x : Int) (y : Int) = .ok true then '*' else ' ')
        = (if g.cellOr h x y then '*' else ' ') := by
    intro x y hx hy
    have ex : ((x : Int) % (n : Int)).toNat = x := by
      rw [Int.emod_eq_of_lt (by omega) (by omega)]; simp
    have ey : ((y : Int) % (n : Int)).toNat = y := by
      rw [Int.emod_eq_of_lt (by omega) (by omega)]; simp
    rw [Alive_square hsq hn (by omega) (by unfold maxInt; omega) (by omega)
      (by unfold maxInt; omega), ex, ey]
    cases g.cellOr h x y <;> simp
  refine ⟨List.replicate (n + 2) '-' ::
    ((List.range n).map (fun y => '|' :: (List.range n).map
      (fun x => if g.cellOr h x y then '*' else ' ') ++ ['|'])
      ++ [List.replicate (n + 2) '-']), ?_, ?_, ?_, ?_, ?_⟩
  · rw [String_square hsq hmax]
    have hrows : (List.range n).flatMap (fun i => ['|'] ++
          (List.range n).flatMap (fun j => [if g.cellOr h j i then '*' else ' ']) ++
            ['|'] ++ ['\n'])
        = (((List.range n).map (fun y => '|' :: (List.range n).map
            (fun x => if g.cellOr h x y then '*' else ' ') ++ ['|'])).map
              (fun l => l ++ ['\n'])).flatten := by
      rw [List.flatMap_def, List.map_map]
      congr 1
      apply List.map_congr_left
      intro i _
      simp only [Function.comp, flatMap_unit]
      rfl
    rw [hrows]
    simp only [List.map_cons, List.map_append, List.flatten_cons, List.flatten_append,
      List.map_nil, List.flatten_nil, List.append_nil, List.append_assoc]
  · simp
  · simp
  · rw [List.getElem?_cons_succ, List.getElem?_append_right (by simp)]
    simp
  · intro y hy
    rw [List.getElem?_cons_succ, List.getElem?_append_left (by simpa using hy),
      List.getElem?_map, List.getElem?_range hy]
    simp only [Option.map_some']
    congr 3
    apply List.map_congr_left
    intro x hx
    exact (hglyph x y (List.mem_range.mp hx) hy).symm

theorem C17_witness :
    ((1 : Nat) ≤ 3 ∧ 2 * ((3 : Nat) : Int) ≤ maxInt ∧ blinkerGrid.IsSquare blinkerHeap 3) ∧
    ∃ lines : List (List Char),
      blinkerGrid.String blinkerHeap = .ok (lines.map (fun l => l ++ ['\n'])).flatten ∧
      lines.length = 3 + 2 ∧
      lines[0]? = some (List.replicate (3 + 2) '-') ∧
      lines[3 + 1]? = some (List.replicate (3 + 2) '-') ∧
      ∀ y : Nat, y < 3 → lines[y + 1]? = some ('|' :: (List.range 3).map
        (fun (x : Nat) =>
          if blinkerGrid.Alive blinkerHeap (x : Int) (y : Int) = .ok true then '*' else ' ')
          ++ ['|']) :=
  ⟨by decide, C17_String_text blinkerHeap blinkerGrid 3 (by decide) (by decide) (by decide)⟩

/-- C16: for every n >= 5 that passes the length check of `make` for the `[][]bool` of a
grid (24n bytes within the allocation limit), GliderGrid(n, n) returns a grid, four
applications of nextGen to it return a grid, and for all 0 <= x, y < n cell (x, y) of the
latter equals cell ((x-1) mod n, (y-1) mod n) of the former: the glider is translated by
one cell diagonally. -/
theorem C16_glider_translates_on_every_torus (h0 : Heap) (n : Nat) (hn : 5 ≤ n)
    (halloc : makeGrants 24 n) :
    ∃ g0 h1 g4 h4, GliderGrid h0 n n = .ok (g0, h1) ∧ generations 4 h1 g0 = .ok (g4, h4) ∧
      ∀ x y : Nat, x < n → y < n →
        g4.cell h4 x y
          = g0.cell h1 (((x : Int) - 1) % (n : Int)).toNat
              (((y : Int) - 1) % (n : Int)).toNat := by
  have hmax : 2 * (n : Int) ≤ maxInt := by
    have := halloc.2
    unfold maxAlloc at this
    unfold maxInt
    omega
  have hm : 2 * (n : Int) ≤ 9223372036854775807 := hmax
  have hsq0 := fresh_isSquare h0 n (gliderMatrix n)
  obtain ⟨g4, more, he, hsq4, hcell⟩ := generations_eq hmax 4 _ _ hsq0
  refine ⟨_, _, g4, _, GliderGrid_eq h0 n hn (by unfold maxInt; omega), he, ?_⟩
  intro x y hx hy
  have hx1 := (wrap_cases x hx (-1) (by decide) (by decide)).2
  have hy1 := (wrap_cases y hy (-1) (by decide) (by decide)).2
  rw [← Int.sub_eq_add_neg] at hx1 hy1
  rw [cell_of_cellOr hsq4 hx hy, hcell x y hx hy,
    lifeSteps_congr 4 (fun a b ha hb => fresh_cellOr h0 n _ ha hb) x y hx hy,
    glider_translates hn hx hy, cell_of_cellOr hsq0 hx1 hy1, fresh_cellOr h0 n _ hx1 hy1]

theorem C16_witness :
    ((5 : Nat) ≤ 25 ∧ makeGrants 24 ((25 : Nat) : Int)) ∧
    ∃ g0 h1 g4 h4, GliderGrid [] ((25 : Nat) : Int) ((25 : Nat) : Int) = .ok (g0, h1) ∧
      generations 4 h1 g0 = .ok (g4, h4) ∧
      ∀ x y : Nat, x < 25 → y < 25 →
        g4.cell h4 x y
          = g0.cell h1 (((x : Int) - 1) % ((25 : Nat) : Int)).toNat
              (((y : Int) - 1) % ((25 : Nat) : Int)).toNat :=
  ⟨by decide, C16_glider_translates_on_every_torus [] 25 (by decide) (by decide)⟩

end Golife
